import Mathlib

/-!
Verification of the AFDO profile bisection tool
(`afdo_tools/bisection/afdo_prof_analysis.py`).

The Python program isolates which parts of a "bad" AFDO profile cause an
externally judged failure.  Profiles are dictionaries mapping function names
to per-function profile text; an external decider classifies a candidate
profile as GOOD / BAD / SKIP / PROBLEM through its exit code.

This file gives a shallow embedding of the program:

* profiles are association lists (`Cfg K V`), mirroring Python dicts with
  distinct keys; `dset` overwrites in place or appends, `dfind` looks up;
* the decider is an arbitrary function `Cfg K V → status_enum`;
* `random.shuffle` is modelled by explicit permutation-producing parameters;
* `bisect_profiles`, `range_search` (with its inner border binary searches,
  which mutate the caller's working profile and are therefore modelled by
  explicit state passing), `bisect_profiles_wrapper` (returning `Except` to
  model `raise ValueError`) are translated from the source;
* a second, store-based rendering (`Store`, `bisect_profilesS`, ...) models
  Python dict objects as references into a mutable store, to reason about
  which dictionaries the code mutates in place;
* `bisect_events` instruments the bisection control flow with the oracle
  queries it issues, the half-intervals it recurses into and the
  `range_search` invocations it makes.
-/

set_option autoImplicit false

namespace AfdoProfAnalysis

/-- Enum of valid statuses returned by the profile decider
(`status_enum` in the source). -/
inductive status_enum : Type where
  | GOOD_STATUS : status_enum
  | BAD_STATUS : status_enum
  | SKIP_STATUS : status_enum
  | PROBLEM_STATUS : status_enum
deriving DecidableEq, Repr

open status_enum

/-- Numeric exit-code value of each status (`IntEnum` values in the source). -/
def status_value : status_enum → Int
  | GOOD_STATUS => 0
  | BAD_STATUS => 1
  | SKIP_STATUS => 125
  | PROBLEM_STATUS => 127

/-- The list of valid exit codes (`statuses = status_enum.__members__.values()`). -/
def statuses : List Int := [0, 1, 125, 127]

/-- `status_enum(return_code)`: the member of the enum with the given value.
Only meaningful for values in `statuses`. -/
def status_of_code (c : Int) : status_enum :=
  if c = 0 then GOOD_STATUS
  else if c = 1 then BAD_STATUS
  else if c = 125 then SKIP_STATUS
  else PROBLEM_STATUS

/-- The exit-code handling of the inner `run` function produced by
`generate_decider`: a valid return code maps to its status, any other
return code raises `ValueError` with a message naming the code. -/
def generate_decider_run (return_code : Int) : Except String status_enum :=
  if return_code ∈ statuses then Except.ok (status_of_code return_code)
  else Except.error
    ("Provided external script had unexpected return code " ++ toString return_code)

section DictModel

variable {K V : Type}

/-- A JSON-based AFDO profile: a Python dict from function name to
profile body, modelled as an association list. -/
abbrev Cfg (K V : Type) : Type := List (K × V)

variable [DecidableEq K]

/-- Dict lookup (`d[k]` as an `Option`). -/
def dfind (c : Cfg K V) (k : K) : Option V :=
  match c with
  | [] => none
  | p :: ps => if p.1 = k then some p.2 else dfind ps k

/-- Dict membership test (`k in d`). -/
def dmem (c : Cfg K V) (k : K) : Bool :=
  c.any (fun p => p.1 = k)

/-- The keys of a dict. -/
def dkeys (c : Cfg K V) : List K := c.map Prod.fst

/-- Dict update `d[k] = v`: overwrite the value at an existing key, or
append a new binding. -/
def dset (c : Cfg K V) (k : K) (v : V) : Cfg K V :=
  if dmem c k then c.map (fun p => if p.1 = k then (k, v) else p)
  else c ++ [(k, v)]

variable [Inhabited V]

/-- Total dict access `d[k]`; in the program every access is to a present
key (a missing key would be a Python `KeyError`), so the default is inert. -/
def dgetI (c : Cfg K V) (k : K) : V := (dfind c k).getD default

/-- The splicing loop `for func in fs: dst[func] = src[func]`. -/
def dsetMany (dst : Cfg K V) (src : Cfg K V) (fs : List K) : Cfg K V :=
  fs.foldl (fun c f => dset c f (dgetI src f)) dst

end DictModel

/-- Python 2 floor-division midpoint `(lo + hi) / 2`. -/
def pymid (lo hi : Nat) : Nat := (lo + hi) / 2

/-- `int(round((x + y) / 2.0))` for natural `x`, `y`: Python 2's `round`
rounds half away from zero, so this is `(x + y + 1) / 2`. -/
def average (x y : Nat) : Nat := (x + y + 1) / 2

/-- Python's `a or b` for an optional number `a` (`None` and `0` are falsy). -/
def pyOrNat (a : Option Nat) (b : Nat) : Nat :=
  match a with
  | none => b
  | some v => if v = 0 then b else v

/-- Python slice `l[a:b]` for natural indices. -/
def pyslice {α : Type} (l : List α) (a b : Nat) : List α :=
  (l.drop a).take (b - a)

section Sorting

variable {K : Type} [LinearOrder K]

/-- `list.sort()` on component names. -/
def sortK (l : List K) : List K := List.insertionSort (· ≤ ·) l

/-- Python's lexicographic `<=` on lists, as used by `list.sort()` on a
list of lists. -/
def lexLe : List K → List K → Bool
  | [], _ => true
  | _ :: _, [] => false
  | a :: as, b :: bs => if a < b then true else if b < a then false else lexLe as bs

/-- The proposition form of `lexLe`. -/
def lexRel (a b : List K) : Prop := lexLe a b = true

instance : DecidableRel (lexRel (K := K)) := fun a b =>
  inferInstanceAs (Decidable (_ = true))

/-- `ranges.sort()`: sort the list of ranges lexicographically. -/
def sortRanges (l : List (List K)) : List (List K) := List.insertionSort lexRel l

end Sorting

section Algorithm

variable {K V : Type} [DecidableEq K] [LinearOrder K] [Inhabited K] [Inhabited V]

/-- `sorted(func for func in good if func in bad)`: the sorted list of
functions which have top-level profiles in both `good` and `bad`. -/
def commonFuncs (good bad : Cfg K V) : List K :=
  sortK ((dkeys good).filter (fun f => dmem bad f))

/-- `_NUM_RUNS_RANGE_SEARCH = 20`. -/
def NUM_RUNS_RANGE_SEARCH : Nat := 20

/-- Result dictionary of the bisection: the `individuals` and `ranges`
lists. -/
structure BisectResults (K : Type) : Type where
  individuals : List K
  ranges : List (List K)
deriving DecidableEq, Repr

/-- Recursion core of `find_upper_border`, structurally recursive on a
fuel argument; the entry point passes fuel equal to the interval width, an
upper bound on the recursion depth, so the fuel never runs out before the
interval degenerates (at width 0 the midpoint equals both ends and the
degenerate answer is returned either way). -/
def find_upper_border_go (D : Cfg K V → status_enum) (good bad : Cfg K V) :
    Nat → Cfg K V → List K → Nat → Nat → Option Nat →
    Nat × Cfg K V × List (Nat × status_enum)
  | 0, good_copy, _, _, hi, last_bad_val => (pyOrNat last_bad_val hi, good_copy, [])
  | fuel + 1, good_copy, funcs, lo, hi, last_bad_val =>
    if average lo hi = lo ∨ average lo hi = hi then
      (pyOrNat last_bad_val hi, good_copy, [])
    else
      let probed := dsetMany good_copy bad (pyslice funcs lo (average lo hi))
      let verdict := D probed
      let reset := dsetMany probed good funcs
      if verdict = BAD_STATUS then
        let r := find_upper_border_go D good bad fuel reset funcs lo
          (average lo hi) (some (average lo hi))
        (r.1, r.2.1, (average lo hi, verdict) :: r.2.2)
      else
        let r := find_upper_border_go D good bad fuel reset funcs
          (average lo hi) hi last_bad_val
        (r.1, r.2.1, (average lo hi, verdict) :: r.2.2)

/-- `find_upper_border` of `range_search`: binary search for the upper
border of the problematic range.  The working profile `good_copy` is
mutated in place by the source, so it is threaded through explicitly; the
result is the returned border, the final working profile and the
chronological trace of `(mid, verdict)` probes made. -/
def find_upper_border (D : Cfg K V → status_enum) (good bad : Cfg K V)
    (good_copy : Cfg K V) (funcs : List K) (lo hi : Nat)
    (last_bad_val : Option Nat) : Nat × Cfg K V × List (Nat × status_enum) :=
  find_upper_border_go D good bad ((hi - lo) + (lo - hi)) good_copy funcs
    lo hi last_bad_val

/-- Recursion core of `find_lower_border`, fueled like
`find_upper_border_go`. -/
def find_lower_border_go (D : Cfg K V → status_enum) (good bad : Cfg K V) :
    Nat → Cfg K V → List K → Nat → Nat → Option Nat →
    Nat × Cfg K V × List (Nat × status_enum)
  | 0, good_copy, _, lo, _, last_bad_val => (pyOrNat last_bad_val lo, good_copy, [])
  | fuel + 1, good_copy, funcs, lo, hi, last_bad_val =>
    if average lo hi = lo ∨ average lo hi = hi then
      (pyOrNat last_bad_val lo, good_copy, [])
    else
      let probed := dsetMany good_copy good (pyslice funcs lo (average lo hi))
      let verdict := D probed
      let reset := dsetMany probed bad funcs
      if verdict = BAD_STATUS then
        let r := find_lower_border_go D good bad fuel reset funcs
          (average lo hi) hi (some lo)
        (r.1, r.2.1, (average lo hi, verdict) :: r.2.2)
      else
        let r := find_lower_border_go D good bad fuel reset funcs lo
          (average lo hi) last_bad_val
        (r.1, r.2.1, (average lo hi, verdict) :: r.2.2)

/-- `find_lower_border` of `range_search`: binary search for the lower
border, probing with bad values substituted back to good, resetting the
working profile to all-bad between probes. -/
def find_lower_border (D : Cfg K V → status_enum) (good bad : Cfg K V)
    (good_copy : Cfg K V) (funcs : List K) (lo hi : Nat)
    (last_bad_val : Option Nat) : Nat × Cfg K V × List (Nat × status_enum) :=
  find_lower_border_go D good bad ((hi - lo) + (lo - hi)) good_copy funcs
    lo hi last_bad_val

/-- One pass of the `for _ in range(_NUM_RUNS_RANGE_SEARCH)` loop of
`range_search`, recursing on the remaining trial budget.  `sh` models
`random.shuffle`: `sh n l` is the shuffle of `l` performed by the `n`-th
shuffle call.  `minR`, `lm`, `mh` are the loop-carried
`min_range_funcs`, `lo_mid_funcs` and `mid_hi_funcs`. -/
def range_search_go (D : Cfg K V → status_enum) (good bad : Cfg K V)
    (sh : Nat → List K → List K) (common_funcs : List K) (lo hi : Nat) :
    Nat → Nat → List K → List K → List K → List K
  | 0, _, minR, _, _ => sortK minR
  | fuel + 1, r, minR, lm, mh =>
    let lm1 := if minR ≠ [] then sh (2 * r) lm
      else pyslice common_funcs lo (pymid lo hi)
    let mh1 := if minR ≠ [] then sh (2 * r + 1) mh
      else pyslice common_funcs (pymid lo hi) hi
    let funcs := lm1 ++ mh1
    let hi1 := funcs.length
    let mid1 := lm1.length
    let prof := dsetMany good bad lm1
    let ub := find_upper_border D good bad prof funcs mid1 hi1 none
    let prof2 := dsetMany ub.2.1 bad (lm1 ++ pyslice funcs mid1 ub.1)
    let lb := find_lower_border D good bad prof2 funcs 0 mid1 none
    let curr := pyslice funcs lb.1 ub.1
    if minR = [] ∨ curr.length < minR.length then
      let lm2 := lm1.drop (lm1.indexOf curr.headI)
      let mh2 := mh1.take (mh1.indexOf ((curr.getLast?).getD default) + 1)
      if curr.length = 2 then sortK curr
      else range_search_go D good bad sh common_funcs lo hi fuel (r + 1) curr lm2 mh2
    else range_search_go D good bad sh common_funcs lo hi fuel (r + 1) minR lm1 mh1

/-- `range_search`: searches for a problematic range crossing the mid
border of `common_funcs[lo:hi]`. -/
def range_search (D : Cfg K V → status_enum) (good bad : Cfg K V)
    (sh : Nat → List K → List K) (common_funcs : List K) (lo hi : Nat) : List K :=
  range_search_go D good bad sh common_funcs lo hi NUM_RUNS_RANGE_SEARCH 0 [] [] []

/-- `bisect_profiles`: recursive function which bisects good and bad
profiles over `common_funcs[lo:hi]`. -/
def bisect_profiles (D : Cfg K V → status_enum) (good bad : Cfg K V)
    (sh : Nat → List K → List K) (common_funcs : List K) (lo hi : Nat) :
    BisectResults K :=
  if h : hi - lo ≤ 1 then ⟨[common_funcs.getD lo default], []⟩
  else
    let lo_mid_prof := dsetMany good bad (pyslice common_funcs lo (pymid lo hi))
    let mid_hi_prof := dsetMany good bad (pyslice common_funcs (pymid lo hi) hi)
    let lo_mid_verdict := D lo_mid_prof
    let mid_hi_verdict := D mid_hi_prof
    let r1 := if lo_mid_verdict = BAD_STATUS then
        bisect_profiles D good bad sh common_funcs lo (pymid lo hi)
      else ⟨[], []⟩
    let r2 := if mid_hi_verdict = BAD_STATUS then
        bisect_profiles D good bad sh common_funcs (pymid lo hi) hi
      else ⟨[], []⟩
    let acc : BisectResults K :=
      ⟨r1.individuals ++ r2.individuals, r1.ranges ++ r2.ranges⟩
    if lo_mid_verdict = GOOD_STATUS ∧ mid_hi_verdict = GOOD_STATUS then
      let problem_range := range_search D good bad sh common_funcs lo hi
      if problem_range ≠ [] then ⟨acc.individuals, acc.ranges ++ [problem_range]⟩
      else acc
    else acc
termination_by hi - lo
decreasing_by
  all_goals simp only [pymid] at *
  all_goals omega

/-- `bisect_profiles_wrapper`: validates the supplied profiles against the
decider (`raise ValueError` is modelled by `Except.error`), computes and
shuffles the common function list (`shuf` models `random.shuffle`), runs
the bisection and sorts the results. -/
def bisect_profiles_wrapper (D : Cfg K V → status_enum) (good bad : Cfg K V)
    (perform_check : Bool) (shuf : List K → List K)
    (sh : Nat → List K → List K) : Except String (BisectResults K) :=
  if perform_check ∧ D good ≠ GOOD_STATUS then
    Except.error "Supplied good profile is not actually GOOD"
  else if perform_check ∧ D bad ≠ BAD_STATUS then
    Except.error "Supplied bad profile is not actually BAD"
  else
    let common_funcs := commonFuncs good bad
    if common_funcs = [] then Except.ok ⟨[], []⟩
    else
      let shuffled := shuf common_funcs
      let results := bisect_profiles D good bad sh shuffled 0 shuffled.length
      Except.ok ⟨sortK results.individuals, sortRanges results.ranges⟩

end Algorithm

/-- Control-flow events of one `bisect_profiles` run: the oracle queries it
issues on half-interval candidates, the half-intervals it recurses into,
and the `range_search` invocations it makes. -/
inductive BEvent : Type where
  | query : Nat → Nat → status_enum → BEvent
  | enter : Nat → Nat → BEvent
  | rangeCall : Nat → Nat → BEvent
deriving DecidableEq, Repr

/-- Lower end of the interval an event concerns. -/
def BEvent.spanLo : BEvent → Nat
  | query a _ _ => a
  | enter a _ => a
  | rangeCall a _ => a

/-- Upper end of the interval an event concerns. -/
def BEvent.spanHi : BEvent → Nat
  | query _ b _ => b
  | enter _ b => b
  | rangeCall _ b => b

section Events

variable {K V : Type} [DecidableEq K] [Inhabited V]

/-- The chronological control-flow trace of `bisect_profiles`: it mirrors
the recursion exactly, recording each oracle query made on a half-interval
candidate, each half-interval recursed into (`enter`), and each invocation
of `range_search` (`rangeCall`). -/
def bisect_events (D : Cfg K V → status_enum) (good bad : Cfg K V)
    (common_funcs : List K) (lo hi : Nat) : List BEvent :=
  if h : hi - lo ≤ 1 then []
  else
    let v1 := D (dsetMany good bad (pyslice common_funcs lo (pymid lo hi)))
    let v2 := D (dsetMany good bad (pyslice common_funcs (pymid lo hi) hi))
    [BEvent.query lo (pymid lo hi) v1, BEvent.query (pymid lo hi) hi v2]
    ++ (if v1 = status_enum.BAD_STATUS then
          BEvent.enter lo (pymid lo hi) ::
            bisect_events D good bad common_funcs lo (pymid lo hi)
        else [])
    ++ (if v2 = status_enum.BAD_STATUS then
          BEvent.enter (pymid lo hi) hi ::
            bisect_events D good bad common_funcs (pymid lo hi) hi
        else [])
    ++ (if v1 = status_enum.GOOD_STATUS ∧ v2 = status_enum.GOOD_STATUS then
          [BEvent.rangeCall lo hi]
        else [])
termination_by hi - lo
decreasing_by
  all_goals simp only [pymid] at *
  all_goals omega

end Events

/-- The midpoint of the most recent probe in a border search trace whose
verdict was BAD. -/
def lastBadMid (tr : List (Nat × status_enum)) : Option Nat :=
  ((tr.filter (fun p => p.2 = status_enum.BAD_STATUS)).getLast?).map Prod.fst

/-- The midpoints of all BAD probes of a border search trace, in
chronological order. -/
def badMids (tr : List (Nat × status_enum)) : List Nat :=
  (tr.filter (fun p => p.2 = status_enum.BAD_STATUS)).map Prod.fst

/-- The value `find_lower_border` actually returns, as a function of its
entry `lo`, its entry `last_bad_val`, and the midpoints of its BAD probes:
with no BAD probe it returns `last_bad_val or lo`; with one BAD probe at
midpoint `m` it returns `(entry lo) or m`; with two or more BAD probes it
returns `(second-to-last BAD midpoint) or (last BAD midpoint)` — where
`x or y` is Python's falsy-aware `or`. -/
def flbSpec (lo : Nat) (lbv : Option Nat) (B : List Nat) : Nat :=
  match B with
  | [] => pyOrNat lbv lo
  | [m] => pyOrNat (some lo) m
  | _ :: _ :: _ => pyOrNat B.dropLast.getLast? (B.getLastD 0)

section StoreModel

/-!
### Store-based rendering

Python dicts are mutable objects; `good.copy()` allocates a fresh dict and
`prof[func] = v` mutates one in place.  To reason about which dicts the
program mutates, this second rendering keeps every dict in a store (a list
of dict values addressed by allocation index) and passes dict references
around, exactly as the Python object graph does.
-/

variable {K V : Type} [DecidableEq K] [LinearOrder K] [Inhabited K] [Inhabited V]

/-- The heap of dict objects; a reference is an index into the list. -/
abbrev Store (K V : Type) : Type := List (Cfg K V)

/-- Dereference a dict. -/
def readS (s : Store K V) (r : Nat) : Cfg K V := s.getD r []

/-- `d.copy()`: allocate a fresh dict holding a copy of `d`'s value,
returning its reference. -/
def allocCopy (s : Store K V) (r : Nat) : Nat × Store K V :=
  (s.length, s ++ [readS s r])

/-- `d[k] = v` on the dict at reference `r`. -/
def writeKeyS (s : Store K V) (r : Nat) (k : K) (v : V) : Store K V :=
  s.set r (dset (readS s r) k v)

/-- `for func in fs: dst[func] = src[func]` on store references. -/
def spliceS (s : Store K V) (dst src : Nat) (fs : List K) : Store K V :=
  fs.foldl (fun st f => writeKeyS st dst f (dgetI (readS st src) f)) s

/-- Fueled recursion core of the store-based `find_upper_border`. -/
def find_upper_borderS_go (D : Cfg K V → status_enum) (goodR badR : Nat) :
    Nat → Store K V → Nat → List K → Nat → Nat → Option Nat → Nat × Store K V
  | 0, s, _, _, _, hi, last_bad_val => (pyOrNat last_bad_val hi, s)
  | fuel + 1, s, profR, funcs, lo, hi, last_bad_val =>
    if average lo hi = lo ∨ average lo hi = hi then
      (pyOrNat last_bad_val hi, s)
    else
      let s1 := spliceS s profR badR (pyslice funcs lo (average lo hi))
      let verdict := D (readS s1 profR)
      let s2 := spliceS s1 profR goodR funcs
      if verdict = status_enum.BAD_STATUS then
        find_upper_borderS_go D goodR badR fuel s2 profR funcs lo
          (average lo hi) (some (average lo hi))
      else
        find_upper_borderS_go D goodR badR fuel s2 profR funcs
          (average lo hi) hi last_bad_val

/-- Store-based `find_upper_border`; the working profile is the dict at
reference `profR`, mutated in place. -/
def find_upper_borderS (D : Cfg K V → status_enum) (goodR badR : Nat)
    (s : Store K V) (profR : Nat) (funcs : List K) (lo hi : Nat)
    (last_bad_val : Option Nat) : Nat × Store K V :=
  find_upper_borderS_go D goodR badR ((hi - lo) + (lo - hi)) s profR funcs
    lo hi last_bad_val

/-- Fueled recursion core of the store-based `find_lower_border`. -/
def find_lower_borderS_go (D : Cfg K V → status_enum) (goodR badR : Nat) :
    Nat → Store K V → Nat → List K → Nat → Nat → Option Nat → Nat × Store K V
  | 0, s, _, _, lo, _, last_bad_val => (pyOrNat last_bad_val lo, s)
  | fuel + 1, s, profR, funcs, lo, hi, last_bad_val =>
    if average lo hi = lo ∨ average lo hi = hi then
      (pyOrNat last_bad_val lo, s)
    else
      let s1 := spliceS s profR goodR (pyslice funcs lo (average lo hi))
      let verdict := D (readS s1 profR)
      let s2 := spliceS s1 profR badR funcs
      if verdict = status_enum.BAD_STATUS then
        find_lower_borderS_go D goodR badR fuel s2 profR funcs
          (average lo hi) hi (some lo)
      else
        find_lower_borderS_go D goodR badR fuel s2 profR funcs lo
          (average lo hi) last_bad_val

/-- Store-based `find_lower_border`. -/
def find_lower_borderS (D : Cfg K V → status_enum) (goodR badR : Nat)
    (s : Store K V) (profR : Nat) (funcs : List K) (lo hi : Nat)
    (last_bad_val : Option Nat) : Nat × Store K V :=
  find_lower_borderS_go D goodR badR ((hi - lo) + (lo - hi)) s profR funcs
    lo hi last_bad_val

/-- Store-based trial loop of `range_search`. -/
def range_search_goS (D : Cfg K V → status_enum) (goodR badR : Nat)
    (sh : Nat → List K → List K) (common_funcs : List K) (lo hi : Nat) :
    Nat → Nat → List K → List K → List K → Store K V → List K × Store K V
  | 0, _, minR, _, _, s => (sortK minR, s)
  | fuel + 1, r, minR, lm, mh, s =>
    let lm1 := if minR ≠ [] then sh (2 * r) lm
      else pyslice common_funcs lo (pymid lo hi)
    let mh1 := if minR ≠ [] then sh (2 * r + 1) mh
      else pyslice common_funcs (pymid lo hi) hi
    let funcs := lm1 ++ mh1
    let hi1 := funcs.length
    let mid1 := lm1.length
    let a := allocCopy s goodR
    let s1 := spliceS a.2 a.1 badR lm1
    let ub := find_upper_borderS D goodR badR s1 a.1 funcs mid1 hi1 none
    let s2 := spliceS ub.2 a.1 badR (lm1 ++ pyslice funcs mid1 ub.1)
    let lb := find_lower_borderS D goodR badR s2 a.1 funcs 0 mid1 none
    let curr := pyslice funcs lb.1 ub.1
    if minR = [] ∨ curr.length < minR.length then
      let lm2 := lm1.drop (lm1.indexOf curr.headI)
      let mh2 := mh1.take (mh1.indexOf ((curr.getLast?).getD default) + 1)
      if curr.length = 2 then (sortK curr, lb.2)
      else range_search_goS D goodR badR sh common_funcs lo hi fuel (r + 1)
        curr lm2 mh2 lb.2
    else range_search_goS D goodR badR sh common_funcs lo hi fuel (r + 1)
      minR lm1 mh1 lb.2

/-- Store-based `range_search`. -/
def range_searchS (D : Cfg K V → status_enum) (goodR badR : Nat)
    (sh : Nat → List K → List K) (common_funcs : List K) (lo hi : Nat)
    (s : Store K V) : List K × Store K V :=
  range_search_goS D goodR badR sh common_funcs lo hi NUM_RUNS_RANGE_SEARCH 0
    [] [] [] s

/-- Store-based `bisect_profiles`: the two candidate profiles are fresh
copies of `good`, spliced in place. -/
def bisect_profilesS (D : Cfg K V → status_enum) (goodR badR : Nat)
    (sh : Nat → List K → List K) (common_funcs : List K) (lo hi : Nat)
    (s : Store K V) : BisectResults K × Store K V :=
  if h : hi - lo ≤ 1 then (⟨[common_funcs.getD lo default], []⟩, s)
  else
    let a1 := allocCopy s goodR
    let a2 := allocCopy a1.2 goodR
    let s1 := spliceS a2.2 a1.1 badR (pyslice common_funcs lo (pymid lo hi))
    let s2 := spliceS s1 a2.1 badR (pyslice common_funcs (pymid lo hi) hi)
    let lo_mid_verdict := D (readS s2 a1.1)
    let mid_hi_verdict := D (readS s2 a2.1)
    let r1 := if lo_mid_verdict = status_enum.BAD_STATUS then
        bisect_profilesS D goodR badR sh common_funcs lo (pymid lo hi) s2
      else (⟨[], []⟩, s2)
    let r2 := if mid_hi_verdict = status_enum.BAD_STATUS then
        bisect_profilesS D goodR badR sh common_funcs (pymid lo hi) hi r1.2
      else (⟨[], []⟩, r1.2)
    let acc : BisectResults K :=
      ⟨r1.1.individuals ++ r2.1.individuals, r1.1.ranges ++ r2.1.ranges⟩
    if lo_mid_verdict = status_enum.GOOD_STATUS ∧
        mid_hi_verdict = status_enum.GOOD_STATUS then
      let pr := range_searchS D goodR badR sh common_funcs lo hi r2.2
      if pr.1 ≠ [] then (⟨acc.individuals, acc.ranges ++ [pr.1]⟩, pr.2)
      else (acc, pr.2)
    else (acc, r2.2)
termination_by hi - lo
decreasing_by
  all_goals simp only [pymid] at *
  all_goals omega

/-- Store-based `bisect_profiles_wrapper`. -/
def bisect_profiles_wrapperS (D : Cfg K V → status_enum) (goodR badR : Nat)
    (perform_check : Bool) (shuf : List K → List K)
    (sh : Nat → List K → List K) (s : Store K V) :
    Except String (BisectResults K) × Store K V :=
  if perform_check ∧ D (readS s goodR) ≠ status_enum.GOOD_STATUS then
    (Except.error "Supplied good profile is not actually GOOD", s)
  else if perform_check ∧ D (readS s badR) ≠ status_enum.BAD_STATUS then
    (Except.error "Supplied bad profile is not actually BAD", s)
  else
    let common_funcs := commonFuncs (readS s goodR) (readS s badR)
    if common_funcs = [] then (Except.ok ⟨[], []⟩, s)
    else
      let shuffled := shuf common_funcs
      let results := bisect_profilesS D goodR badR sh shuffled 0
        shuffled.length s
      (Except.ok ⟨sortK results.1.individuals, sortRanges results.1.ranges⟩,
        results.2)

/-- Store-based `check_good_not_bad`: check whether the bad profile becomes
GOOD after adding the functions it lacks from the good profile.  A fresh
copy of `bad` is extended in place; `good` and `bad` are only read. -/
def check_good_not_badS (D : Cfg K V → status_enum) (goodR badR : Nat)
    (s : Store K V) : Bool × Store K V :=
  let a := allocCopy s badR
  let s1 := (dkeys (readS a.2 goodR)).foldl
    (fun st f =>
      if dmem (readS st badR) f then st
      else writeKeyS st a.1 f (dgetI (readS st goodR) f)) a.2
  (decide (D (readS s1 a.1) = status_enum.GOOD_STATUS), s1)

/-- Store-based `check_bad_not_good`: check whether the good profile turns
BAD after adding the functions only the bad profile has. -/
def check_bad_not_goodS (D : Cfg K V → status_enum) (goodR badR : Nat)
    (s : Store K V) : Bool × Store K V :=
  let a := allocCopy s goodR
  let s1 := (dkeys (readS a.2 badR)).foldl
    (fun st f =>
      if dmem (readS st goodR) f then st
      else writeKeyS st a.1 f (dgetI (readS st badR) f)) a.2
  (decide (D (readS s1 a.1) = status_enum.BAD_STATUS), s1)

/-- The store entries below a cut `n` are preserved and the store only
grows: the frame property of a store transformation that allocates fresh
dicts and writes only to them. -/
def StoreExt (n : Nat) (s s' : Store K V) : Prop :=
  s.length ≤ s'.length ∧ ∀ i, i < n → readS s' i = readS s i

end StoreModel

/-! ### Lemmas about the dict model -/

section DictLemmas

variable {K V : Type} [DecidableEq K] [Inhabited V]

theorem dmem_iff_isSome_dfind {c : Cfg K V} {k : K} :
    dmem c k = true ↔ (dfind c k).isSome := by
  induction c with
  | nil => simp [dmem, dfind]
  | cons p ps ih =>
    by_cases h : p.1 = k <;> simp [dmem, dfind, h, List.any_cons] at ih ⊢
    exact ih

theorem dfind_eq_of_dmem {c : Cfg K V} {k : K} (h : dmem c k = true) :
    dfind c k = some (dgetI c k) := by
  have := dmem_iff_isSome_dfind.1 h
  rcases Option.isSome_iff_exists.1 this with ⟨v, hv⟩
  simp [dgetI, hv]

theorem dmem_cons {p : K × V} {ps : Cfg K V} {k : K} :
    dmem (p :: ps) k = (decide (p.1 = k) || dmem ps k) := by
  simp [dmem, List.any_cons]

theorem dfind_map_overwrite (c : Cfg K V) (k : K) (v : V) :
    dmem c k = true →
    dfind (c.map (fun p => if p.1 = k then (k, v) else p)) k = some v := by
  induction c with
  | nil => intro h; simp [dmem] at h
  | cons p ps ih =>
    intro h
    by_cases hp : p.1 = k
    · simp [dfind, hp]
    · have hps : dmem ps k = true := by simpa [dmem_cons, hp] using h
      simp [dfind, hp, ih hps]

theorem dfind_map_overwrite_ne (c : Cfg K V) {k' k : K} (v : V) (h : k' ≠ k) :
    dfind (c.map (fun p => if p.1 = k' then (k', v) else p)) k = dfind c k := by
  induction c with
  | nil => rfl
  | cons p ps ih =>
    by_cases hp : p.1 = k'
    · have hk : ¬ p.1 = k := by rw [hp]; exact h
      have hk' : ¬ (k' : K) = k := h
      simp [dfind, hp, hk, hk', ih]
    · simp [dfind, hp, ih]

theorem dfind_append_single (c : Cfg K V) (k : K) (v : V) :
    dmem c k = false → dfind (c ++ [(k, v)]) k = some v := by
  induction c with
  | nil => intro _; simp [dfind]
  | cons p ps ih =>
    intro h
    have hp : ¬ p.1 = k := by
      intro hk
      simp [dmem_cons, hk] at h
    have hps : dmem ps k = false := by
      simpa [dmem_cons, hp] using h
    simp [dfind, hp, ih hps]

theorem dfind_append_single_ne (c : Cfg K V) {k' k : K} (v : V) (h : k' ≠ k) :
    dfind (c ++ [(k', v)]) k = dfind c k := by
  induction c with
  | nil => simp [dfind, h]
  | cons p ps ih => by_cases hp : p.1 = k <;> simp [dfind, hp, ih]

theorem dfind_dset_self (c : Cfg K V) (k : K) (v : V) :
    dfind (dset c k v) k = some v := by
  unfold dset
  by_cases h : dmem c k
  · simp only [h, if_true]
    exact dfind_map_overwrite c k v h
  · simp only [h, if_false]
    exact dfind_append_single c k v (by simpa using h)

theorem dfind_dset_ne (c : Cfg K V) {k' k : K} (v : V) (h : k' ≠ k) :
    dfind (dset c k' v) k = dfind c k := by
  unfold dset
  by_cases hm : dmem c k'
  · simp only [hm, if_true]
    exact dfind_map_overwrite_ne c v h
  · simp only [hm, if_false]
    exact dfind_append_single_ne c v h

theorem dfind_dsetMany_not_mem {dst src : Cfg K V} {fs : List K} {f : K}
    (h : f ∉ fs) : dfind (dsetMany dst src fs) f = dfind dst f := by
  induction fs generalizing dst with
  | nil => rfl
  | cons g gs ih =>
    have hg : g ≠ f := fun hgf => h (hgf ▸ List.mem_cons_self g gs)
    have hgs : f ∉ gs := fun hf => h (List.mem_cons_of_mem g hf)
    simpa [dsetMany, dfind_dset_ne dst _ hg] using @ih (dset dst g (dgetI src g)) hgs

theorem dfind_dsetMany_mem {dst src : Cfg K V} {fs : List K} {f : K}
    (h : f ∈ fs) : dfind (dsetMany dst src fs) f = some (dgetI src f) := by
  induction fs generalizing dst with
  | nil => cases h
  | cons g gs ih =>
    by_cases hf : f ∈ gs
    · simpa [dsetMany] using @ih (dset dst g (dgetI src g)) hf
    · have hg : g = f := by
        rcases List.mem_cons.1 h with h' | h'
        · exact h'.symm
        · exact absurd h' hf
      subst hg
      have : dsetMany (dset dst g (dgetI src g)) src gs = dsetMany dst src (g :: gs) := rfl
      rw [show dsetMany dst src (g :: gs) = dsetMany (dset dst g (dgetI src g)) src gs from rfl,
        dfind_dsetMany_not_mem hf, dfind_dset_self]

end DictLemmas

section CommonFuncsLemmas

variable {K V : Type} [DecidableEq K] [LinearOrder K] [Inhabited K] [Inhabited V]

theorem mem_sortK {l : List K} {a : K} : a ∈ sortK l ↔ a ∈ l :=
  (List.perm_insertionSort _ l).mem_iff

theorem mem_commonFuncs {good bad : Cfg K V} {f : K} :
    f ∈ commonFuncs good bad ↔ f ∈ dkeys good ∧ dmem bad f = true := by
  rw [commonFuncs, mem_sortK, List.mem_filter]

end CommonFuncsLemmas

section SliceLemmas

variable {α : Type} [Inhabited α]

theorem pyslice_length (l : List α) (a b : Nat) (hb : b ≤ l.length) :
    (pyslice l a b).length = b - a := by
  simp only [pyslice, List.length_take, List.length_drop]
  omega

theorem pyslice_getElem? (l : List α) (a b i : Nat) (h : i < b - a) :
    (pyslice l a b)[i]? = l[a + i]? := by
  rw [pyslice, List.getElem?_take_of_lt h, List.getElem?_drop]

theorem getD_mem_pyslice (l : List α) (a b i : Nat)
    (h1 : a ≤ i) (h2 : i < b) (h3 : b ≤ l.length) :
    l.getD i default ∈ pyslice l a b := by
  have hi : i < l.length := lt_of_lt_of_le h2 h3
  rw [List.getD_eq_getElem l default hi, List.mem_iff_getElem?]
  refine ⟨i - a, ?_⟩
  rw [pyslice_getElem? l a b (i - a) (by omega)]
  have hia : a + (i - a) = i := by omega
  rw [hia, List.getElem?_eq_getElem hi]

theorem pyslice_subset (l : List α) (a b : Nat) : pyslice l a b ⊆ l :=
  fun _ hx => List.drop_subset a l ((List.take_subset _ _) hx)

theorem pyslice_singleton (l : List α) (lo : Nat) (h : lo < l.length) :
    pyslice l lo (lo + 1) = [l.getD lo default] := by
  rw [pyslice]
  have h1 : lo + 1 - lo = 1 := by omega
  rw [h1, List.drop_eq_getElem_cons h,
    show (1 : Nat) = 0 + 1 from rfl, List.take_succ_cons, List.take_zero,
    List.getD_eq_getElem l default h]

theorem mem_iff_getD (l : List α) (a : α) :
    a ∈ l ↔ ∃ i, i < l.length ∧ l.getD i default = a := by
  rw [List.mem_iff_getElem]
  constructor
  · rintro ⟨i, h, rfl⟩
    exact ⟨i, h, List.getD_eq_getElem l default h⟩
  · rintro ⟨i, h, hd⟩
    exact ⟨i, h, by rw [← List.getD_eq_getElem l default h, hd]⟩

end SliceLemmas

/-! ### Claim theorems -/

open status_enum

/-- Claim C4: the decider produced by `generate_decider` maps exit codes 0,
1, 125, 127 to GOOD, BAD, SKIP, PROBLEM respectively, raises an error
naming the offending code for any other exit code, and raises in no other
case. -/
theorem generate_decider_run_exit_codes :
    generate_decider_run 0 = Except.ok GOOD_STATUS ∧
    generate_decider_run 1 = Except.ok BAD_STATUS ∧
    generate_decider_run 125 = Except.ok SKIP_STATUS ∧
    generate_decider_run 127 = Except.ok PROBLEM_STATUS ∧
    (∀ c : Int, c ∉ statuses →
      generate_decider_run c = Except.error
        ("Provided external script had unexpected return code " ++ toString c)) ∧
    (∀ c : Int,
      (∃ msg, generate_decider_run c = Except.error msg) ↔ c ∉ statuses) := by
  refine ⟨rfl, rfl, rfl, rfl, ?_, ?_⟩
  · intro c hc
    simp [generate_decider_run, hc]
  · intro c
    constructor
    · rintro ⟨msg, hm⟩ hc
      simp [generate_decider_run, hc] at hm
    · intro hc
      refine ⟨"Provided external script had unexpected return code " ++ toString c, ?_⟩
      simp [generate_decider_run, hc]

/-- Witness for C4 at the concrete unexpected exit code 42. -/
theorem generate_decider_run_exit_codes_witness :
    generate_decider_run 42 = Except.error
      ("Provided external script had unexpected return code " ++ toString (42 : Int)) ∧
    ((∃ msg, generate_decider_run 42 = Except.error msg) ↔ (42 : Int) ∉ statuses) :=
  ⟨generate_decider_run_exit_codes.2.2.2.2.1 42 (by decide),
    generate_decider_run_exit_codes.2.2.2.2.2 42⟩

/-- Claim C7: the candidate obtained by splicing bad payloads for the empty
component subset into good equals good, and the candidate obtained by
splicing bad payloads for the whole common component set into good agrees
with bad on every common component. -/
theorem make_candidate_round_trip {K V : Type} [DecidableEq K] [LinearOrder K]
    [Inhabited K] [Inhabited V] (good bad : Cfg K V) :
    dsetMany good bad ([] : List K) = good ∧
    ∀ f ∈ commonFuncs good bad,
      dfind (dsetMany good bad (commonFuncs good bad)) f = dfind bad f := by
  refine ⟨rfl, ?_⟩
  intro f hf
  have hb : dmem bad f = true := (mem_commonFuncs.1 hf).2
  rw [dfind_dsetMany_mem hf, dfind_eq_of_dmem hb]

/-- Witness for C7 at a concrete good/bad pair with one common function. -/
theorem make_candidate_round_trip_witness :
    dfind (dsetMany [((0 : Nat), (1 : Nat))] [(0, 9)]
      (commonFuncs [(0, 1)] [(0, 9)])) 0 = dfind [(0, 9)] 0 :=
  (make_candidate_round_trip [(0, 1)] [(0, 9)]).2 0 (by decide)

/-- Claim C5: with `perform_check` enabled, `bisect_profiles_wrapper`
raises a error before any search step if and only if the decider rules
the unmodified good profile anything other than GOOD or rules the
unmodified bad profile anything other than BAD. -/
theorem bisect_profiles_wrapper_validation {K V : Type} [DecidableEq K]
    [LinearOrder K] [Inhabited K] [Inhabited V] (D : Cfg K V → status_enum)
    (good bad : Cfg K V) (shuf : List K → List K)
    (sh : Nat → List K → List K) :
    (∃ e, bisect_profiles_wrapper D good bad true shuf sh = Except.error e) ↔
      (D good ≠ GOOD_STATUS ∨ D bad ≠ BAD_STATUS) := by
  unfold bisect_profiles_wrapper
  by_cases hg : D good = GOOD_STATUS
  · by_cases hb : D bad = BAD_STATUS
    · simp only [hg, hb, ne_eq, not_true_eq_false, and_false, if_false]
      by_cases hc : commonFuncs good bad = [] <;> simp [hc, hg, hb]
    · simp [hg, hb]
  · simp [hg]

/-- Claim C10: when exactly one common function exists, the wrapper (after
successful validation) reports that function as the sole individual with no
ranges, and the bisection over the singleton interval issues no oracle
query at all. -/
theorem wrapper_singleton_common {K V : Type} [DecidableEq K] [LinearOrder K]
    [Inhabited K] [Inhabited V] (D : Cfg K V → status_enum) (good bad : Cfg K V)
    (shuf : List K → List K) (sh : Nat → List K → List K) (f : K)
    (hgood : D good = GOOD_STATUS) (hbad : D bad = BAD_STATUS)
    (hcommon : commonFuncs good bad = [f])
    (hshuf : (shuf [f]).Perm [f]) :
    bisect_profiles_wrapper D good bad true shuf sh = Except.ok ⟨[f], []⟩ ∧
    bisect_events D good bad (shuf (commonFuncs good bad)) 0 1 = [] := by
  have hs : shuf [f] = [f] := List.perm_singleton.1 hshuf
  have hbis : bisect_profiles D good bad sh [f] 0 1 = ⟨[f], []⟩ := by
    rw [bisect_profiles]
    norm_num
  constructor
  · unfold bisect_profiles_wrapper
    simp only [hgood, hbad, ne_eq, not_true_eq_false, and_false, if_false,
      hcommon, hs]
    norm_num [hbis, sortK, List.insertionSort, List.orderedInsert, sortRanges]
  · rw [hcommon, hs, bisect_events]
    norm_num

section BisectIndividuals

variable {K V : Type} [DecidableEq K] [LinearOrder K] [Inhabited K] [Inhabited V]

theorem bisect_base (D : Cfg K V → status_enum) (good bad : Cfg K V)
    (sh : Nat → List K → List K) (funcs : List K) (lo hi : Nat)
    (h : hi - lo ≤ 1) :
    bisect_profiles D good bad sh funcs lo hi =
      ⟨[funcs.getD lo default], []⟩ := by
  rw [bisect_profiles]
  simp [h]

theorem bisect_individuals_eq (D : Cfg K V → status_enum) (good bad : Cfg K V)
    (sh : Nat → List K → List K) (funcs : List K) (lo hi : Nat)
    (h : ¬ hi - lo ≤ 1) :
    (bisect_profiles D good bad sh funcs lo hi).individuals =
      (if D (dsetMany good bad (pyslice funcs lo (pymid lo hi))) = BAD_STATUS
        then (bisect_profiles D good bad sh funcs lo (pymid lo hi)).individuals
        else []) ++
      (if D (dsetMany good bad (pyslice funcs (pymid lo hi) hi)) = BAD_STATUS
        then (bisect_profiles D good bad sh funcs (pymid lo hi) hi).individuals
        else []) := by
  rw [bisect_profiles]
  simp only [dif_neg h]
  split_ifs <;> simp

/-- Characterisation of the individuals reported by `bisect_profiles` over
`[lo, hi)` under a monotone decider: assuming the base-case entry condition
(a solitary interval is only entered after a BAD verdict on it, except at
the top level), the individuals are exactly the positions whose solitary
substitution the decider rules BAD. -/
theorem bisect_individuals_iff (D : Cfg K V → status_enum) (good bad : Cfg K V)
    (sh : Nat → List K → List K) (funcs : List K)
    (hmono : ∀ S T : List K, (∀ f ∈ S, f ∈ T) → (∀ f ∈ T, f ∈ funcs) →
      D (dsetMany good bad S) = BAD_STATUS →
      D (dsetMany good bad T) = BAD_STATUS) :
    ∀ n lo hi, hi - lo ≤ n → lo < hi → hi ≤ funcs.length →
      (hi - lo = 1 →
        D (dsetMany good bad [funcs.getD lo default]) = BAD_STATUS) →
      ∀ f, (f ∈ (bisect_profiles D good bad sh funcs lo hi).individuals ↔
        ∃ i, lo ≤ i ∧ i < hi ∧ funcs.getD i default = f ∧
          D (dsetMany good bad [funcs.getD i default]) = BAD_STATUS) := by
  intro n
  induction n with
  | zero => intro lo hi h1 h2; omega
  | succ n ih =>
    intro lo hi hn hlh hhl hbase f
    by_cases hb : hi - lo ≤ 1
    · have h1 : hi - lo = 1 := by omega
      rw [bisect_base D good bad sh funcs lo hi hb]
      constructor
      · intro hf
        have : f = funcs.getD lo default := by simpa using hf
        exact ⟨lo, le_refl lo, by omega, this.symm, hbase h1⟩
      · rintro ⟨i, hi1, hi2, hif, _⟩
        have : i = lo := by omega
        subst this
        simpa using hif.symm
    · have h2 : 2 ≤ hi - lo := by omega
      obtain ⟨m, hmdef⟩ : ∃ m, pymid lo hi = m := ⟨_, rfl⟩
      have hmid1 : lo < m := by rw [← hmdef]; simp only [pymid]; omega
      have hmid2 : m < hi := by rw [← hmdef]; simp only [pymid]; omega
      have hmidlen : m ≤ funcs.length := by omega
      have hbaseL : D (dsetMany good bad (pyslice funcs lo m)) = BAD_STATUS →
          m - lo = 1 →
          D (dsetMany good bad [funcs.getD lo default]) = BAD_STATUS := by
        intro hv h1
        have hm : m = lo + 1 := by omega
        rw [hm, pyslice_singleton funcs lo (by omega)] at hv
        exact hv
      have hbaseR : D (dsetMany good bad (pyslice funcs m hi)) = BAD_STATUS →
          hi - m = 1 →
          D (dsetMany good bad [funcs.getD m default]) = BAD_STATUS := by
        intro hv h1
        have hm : hi = m + 1 := by omega
        rw [hm, pyslice_singleton funcs m (by omega)] at hv
        exact hv
      rw [bisect_individuals_eq D good bad sh funcs lo hi hb, hmdef,
        List.mem_append]
      constructor
      · rintro (hf | hf)
        · by_cases hv : D (dsetMany good bad
              (pyslice funcs lo m)) = BAD_STATUS
          · rw [if_pos hv] at hf
            obtain ⟨i, hi1, hi2, hif, hib⟩ :=
              (ih lo m (by omega) hmid1 hmidlen (hbaseL hv) f).1 hf
            exact ⟨i, hi1, by omega, hif, hib⟩
          · rw [if_neg hv] at hf
            cases hf
        · by_cases hv : D (dsetMany good bad
              (pyslice funcs m hi)) = BAD_STATUS
          · rw [if_pos hv] at hf
            obtain ⟨i, hi1, hi2, hif, hib⟩ :=
              (ih m hi (by omega) hmid2 hhl (hbaseR hv) f).1 hf
            exact ⟨i, by omega, hi2, hif, hib⟩
          · rw [if_neg hv] at hf
            cases hf
      · rintro ⟨i, hi1, hi2, hif, hib⟩
        by_cases him : i < m
        · left
          have hv : D (dsetMany good bad
              (pyslice funcs lo m)) = BAD_STATUS := by
            refine hmono [funcs.getD i default]
              (pyslice funcs lo m) ?_ ?_ hib
            · intro g hg
              rw [List.mem_singleton] at hg
              subst hg
              exact getD_mem_pyslice funcs lo m i hi1 him hmidlen
            · intro g hg
              exact pyslice_subset funcs lo m hg
          rw [if_pos hv]
          exact (ih lo m (by omega) hmid1 hmidlen
            (hbaseL hv) f).2 ⟨i, hi1, him, hif, hib⟩
        · right
          have him' : m ≤ i := by omega
          have hv : D (dsetMany good bad
              (pyslice funcs m hi)) = BAD_STATUS := by
            refine hmono [funcs.getD i default]
              (pyslice funcs m hi) ?_ ?_ hib
            · intro g hg
              rw [List.mem_singleton] at hg
              subst hg
              exact getD_mem_pyslice funcs m hi i him' hi2 hhl
            · intro g hg
              exact pyslice_subset funcs m hi hg
          rw [if_pos hv]
          exact (ih m hi (by omega) hmid2 hhl
            (hbaseR hv) f).2 ⟨i, him', hi2, hif, hib⟩

end BisectIndividuals

/-- With validation passing and a non-empty common set, the wrapper returns
the sorted bisection results over the shuffled common list. -/
theorem wrapper_ok {K V : Type} [DecidableEq K] [LinearOrder K]
    [Inhabited K] [Inhabited V] (D : Cfg K V → status_enum) (good bad : Cfg K V)
    (shuf : List K → List K) (sh : Nat → List K → List K)
    (hg : D good = GOOD_STATUS) (hb : D bad = BAD_STATUS)
    (hc : commonFuncs good bad ≠ []) :
    bisect_profiles_wrapper D good bad true shuf sh =
      Except.ok ⟨sortK (bisect_profiles D good bad sh
          (shuf (commonFuncs good bad)) 0
          (shuf (commonFuncs good bad)).length).individuals,
        sortRanges (bisect_profiles D good bad sh
          (shuf (commonFuncs good bad)) 0
          (shuf (commonFuncs good bad)).length).ranges⟩ := by
  unfold bisect_profiles_wrapper
  simp [hg, hb, hc]

/-- Claim C1 (amended): for a monotone decider — one whose verdict on a
candidate depends only on which common components carry their bad payload
and where enlarging the spliced set preserves a BAD verdict — and a
good/bad pair passing validation, provided the number of common components
is not exactly one, the individuals returned by `bisect_profiles_wrapper`
are exactly the common components whose solitary substitution into good
the decider rules BAD.  (With exactly one common component that component
is reported unconditionally; see the counterexample.) -/
theorem wrapper_individuals_exact {K V : Type} [DecidableEq K] [LinearOrder K]
    [Inhabited K] [Inhabited V] (D : Cfg K V → status_enum) (good bad : Cfg K V)
    (shuf : List K → List K) (sh : Nat → List K → List K)
    (hmono : ∀ S T : List K, (∀ f ∈ S, f ∈ T) →
      (∀ f ∈ T, f ∈ commonFuncs good bad) →
      D (dsetMany good bad S) = BAD_STATUS →
      D (dsetMany good bad T) = BAD_STATUS)
    (hshuf : (shuf (commonFuncs good bad)).Perm (commonFuncs good bad))
    (hgood : D good = GOOD_STATUS) (hbad : D bad = BAD_STATUS)
    (hlen : (commonFuncs good bad).length ≠ 1) :
    ∃ res, bisect_profiles_wrapper D good bad true shuf sh = Except.ok res ∧
      ∀ f, (f ∈ res.individuals ↔
        (f ∈ commonFuncs good bad ∧
          D (dsetMany good bad [f]) = BAD_STATUS)) := by
  by_cases hc : commonFuncs good bad = []
  · refine ⟨⟨[], []⟩, ?_, ?_⟩
    · unfold bisect_profiles_wrapper
      simp [hgood, hbad, hc]
    · intro f
      simp [hc]
  · set funcs := shuf (commonFuncs good bad) with hfuncs
    have hlenf : funcs.length = (commonFuncs good bad).length :=
      hshuf.length_eq
    have hne : (commonFuncs good bad).length ≠ 0 := by
      intro h0
      exact hc (List.length_eq_zero.1 h0)
    have h2 : 2 ≤ funcs.length := by omega
    refine ⟨⟨sortK (bisect_profiles D good bad sh funcs 0
        funcs.length).individuals,
      sortRanges (bisect_profiles D good bad sh funcs 0
        funcs.length).ranges⟩, ?_, ?_⟩
    · unfold bisect_profiles_wrapper
      simp [hgood, hbad, hc, hfuncs]
    · intro f
      rw [mem_sortK]
      have hmono' : ∀ S T : List K, (∀ g ∈ S, g ∈ T) → (∀ g ∈ T, g ∈ funcs) →
          D (dsetMany good bad S) = BAD_STATUS →
          D (dsetMany good bad T) = BAD_STATUS := by
        intro S T hST hT
        exact hmono S T hST (fun g hg => hshuf.mem_iff.1 (hT g hg))
      rw [bisect_individuals_iff D good bad sh funcs hmono' funcs.length 0
        funcs.length (by omega) (by omega) (le_refl _)
        (fun h1 => absurd h1 (by omega)) f]
      constructor
      · rintro ⟨i, _, hilt, hif, hib⟩
        have hfm : f ∈ funcs := by
          rw [← hif]
          exact (mem_iff_getD funcs _).2 ⟨i, hilt, rfl⟩
        rw [hif] at hib
        exact ⟨hshuf.mem_iff.1 hfm, hib⟩
      · rintro ⟨hfm, hib⟩
        have : f ∈ funcs := hshuf.mem_iff.2 hfm
        obtain ⟨i, hilt, hif⟩ := (mem_iff_getD funcs f).1 this
        exact ⟨i, Nat.zero_le i, hilt, hif, by rw [hif]; exact hib⟩

/-- The claim C1 as stated — without any restriction on the size of the
common set — is false: with exactly one common component the wrapper
reports it as an individual regardless of the verdict on its solitary
substitution. -/
theorem wrapper_individuals_exact_counterexample :
    ¬ (∀ (D : Cfg Nat Nat → status_enum) (good bad : Cfg Nat Nat)
        (shuf : List Nat → List Nat) (sh : Nat → List Nat → List Nat),
      (∀ S T : List Nat, (∀ f ∈ S, f ∈ T) →
        (∀ f ∈ T, f ∈ commonFuncs good bad) →
        D (dsetMany good bad S) = BAD_STATUS →
        D (dsetMany good bad T) = BAD_STATUS) →
      (shuf (commonFuncs good bad)).Perm (commonFuncs good bad) →
      D good = GOOD_STATUS → D bad = BAD_STATUS →
      ∀ res, bisect_profiles_wrapper D good bad true shuf sh = Except.ok res →
        ∀ f, (f ∈ res.individuals ↔
          (f ∈ commonFuncs good bad ∧
            D (dsetMany good bad [f]) = BAD_STATUS))) := by
  intro hclaim
  have hcommon : commonFuncs [((0 : Nat), (1 : Nat))] [(0, 5), (1, 7)] = [0] :=
    by decide
  have hmono : ∀ S T : List Nat, (∀ f ∈ S, f ∈ T) →
      (∀ f ∈ T, f ∈ commonFuncs [((0 : Nat), (1 : Nat))] [(0, 5), (1, 7)]) →
      (fun c => if dfind c 1 = some 7 then BAD_STATUS else GOOD_STATUS)
        (dsetMany [(0, 1)] [(0, 5), (1, 7)] S) = BAD_STATUS →
      (fun c => if dfind c 1 = some 7 then BAD_STATUS else GOOD_STATUS)
        (dsetMany [(0, 1)] [(0, 5), (1, 7)] T) = BAD_STATUS := by
    intro S T hST hT hbadS
    exfalso
    by_cases h1 : 1 ∈ S
    · have h1T := hT 1 (hST 1 h1)
      rw [hcommon] at h1T
      simp at h1T
    · have hfind : dfind (dsetMany [((0 : Nat), (1 : Nat))] [(0, 5), (1, 7)] S) 1 =
          dfind [((0 : Nat), (1 : Nat))] 1 := dfind_dsetMany_not_mem h1
      simp only [] at hbadS
      rw [hfind] at hbadS
      rw [show dfind ([((0 : Nat), (1 : Nat))] : Cfg Nat Nat) 1 = none from rfl]
        at hbadS
      simp at hbadS
  have hok : bisect_profiles_wrapper
      (fun c => if dfind c 1 = some 7 then BAD_STATUS else GOOD_STATUS)
      [((0 : Nat), (1 : Nat))] [(0, 5), (1, 7)]
      true id (fun _ => id) = Except.ok ⟨[0], []⟩ := by
    have hbis : bisect_profiles
        (fun c => if dfind c 1 = some 7 then BAD_STATUS else GOOD_STATUS)
        [((0 : Nat), (1 : Nat))] [(0, 5), (1, 7)]
        (fun _ => id) [0] 0 1 = ⟨[0], []⟩ := by
      rw [bisect_profiles]
      norm_num
    rw [wrapper_ok _ _ _ _ _ (by decide) (by decide) (by decide)]
    rw [hcommon]
    simp only [id_eq, List.length_singleton, hbis]
    rfl
  have := (hclaim
    (fun c => if dfind c 1 = some 7 then BAD_STATUS else GOOD_STATUS)
    [(0, 1)] [(0, 5), (1, 7)] id (fun _ => id) hmono
    (by rw [hcommon]; exact List.Perm.refl _) (by decide) (by decide)
    ⟨[0], []⟩ hok 0).1 (by simp)
  rw [hcommon] at this
  have hGOOD : (if dfind (dsetMany [((0 : Nat), (1 : Nat))] [(0, 5), (1, 7)] [0])
        1 = some 7 then BAD_STATUS else GOOD_STATUS) = GOOD_STATUS := by decide
  rw [this.2] at hGOOD
  exact absurd hGOOD (by decide)

/-- Witness for C1 (amended) at a two-common-component pair with a monotone
decider that rules component 0's solitary substitution BAD. -/
theorem wrapper_individuals_exact_witness :
    ∃ res, bisect_profiles_wrapper
        (fun c => if dfind c 0 = some 9 then BAD_STATUS else GOOD_STATUS)
        [((0 : Nat), (1 : Nat)), (1, 1)] [(0, 9), (1, 9)] true id
        (fun _ => id) = Except.ok res ∧
      ∀ f, (f ∈ res.individuals ↔
        (f ∈ commonFuncs [((0 : Nat), (1 : Nat)), (1, 1)] [(0, 9), (1, 9)] ∧
          (fun c => if dfind c 0 = some 9 then BAD_STATUS else GOOD_STATUS)
            (dsetMany [((0 : Nat), (1 : Nat)), (1, 1)] [(0, 9), (1, 9)] [f]) =
            BAD_STATUS)) := by
  refine wrapper_individuals_exact _ _ _ id (fun _ => id) ?_ ?_ (by decide)
    (by decide) (by decide)
  · intro S T hST hT hbadS
    have h0 : 0 ∈ S := by
      by_contra h0
      have hfind : dfind (dsetMany [((0 : Nat), (1 : Nat)), (1, 1)]
          [(0, 9), (1, 9)] S) 0 =
          dfind [((0 : Nat), (1 : Nat)), (1, 1)] 0 := dfind_dsetMany_not_mem h0
      simp only [hfind] at hbadS
      norm_num [dfind] at hbadS
      exact absurd hbadS (by decide)
    have h0T : (0 : Nat) ∈ T := hST 0 h0
    have hfind : dfind (dsetMany [((0 : Nat), (1 : Nat)), (1, 1)]
        [(0, 9), (1, 9)] T) 0 = some (dgetI [(0, 9), (1, 9)] 0) :=
      dfind_dsetMany_mem h0T
    simp only [hfind]
    norm_num [dgetI, dfind]
  · exact List.Perm.refl _

/-- Witness for C10 at a concrete pair with the single common function 0. -/
theorem wrapper_singleton_common_witness :
    bisect_profiles_wrapper
        (fun c => if dfind c 0 = some 1 then GOOD_STATUS else BAD_STATUS)
        [((0 : Nat), (1 : Nat))] [(0, 9)] true id (fun _ => id) =
      Except.ok ⟨[0], []⟩ ∧
    bisect_events
        (fun c => if dfind c 0 = some 1 then GOOD_STATUS else BAD_STATUS)
        [((0 : Nat), (1 : Nat))] [(0, 9)]
        (id (commonFuncs [((0 : Nat), (1 : Nat))] [(0, 9)])) 0 1 = [] :=
  wrapper_singleton_common _ [(0, 1)] [(0, 9)] id (fun _ => id) 0
    (by decide) (by decide) (by decide) (by decide)

section EventLemmas

variable {K V : Type} [DecidableEq K] [Inhabited V]

theorem bisect_events_base (D : Cfg K V → status_enum) (good bad : Cfg K V)
    (funcs : List K) (lo hi : Nat) (h : hi - lo ≤ 1) :
    bisect_events D good bad funcs lo hi = [] := by
  rw [bisect_events]
  simp [h]

/-- Every event recorded at interval `[lo, hi)` concerns a sub-interval;
only the top-level `rangeCall` spans the whole interval. -/
theorem bisect_events_span (D : Cfg K V → status_enum) (good bad : Cfg K V)
    (funcs : List K) :
    ∀ n lo hi, hi - lo ≤ n → ∀ e ∈ bisect_events D good bad funcs lo hi,
      lo ≤ e.spanLo ∧ e.spanHi ≤ hi ∧
        (e.spanHi - e.spanLo < hi - lo ∨ e = BEvent.rangeCall lo hi) := by
  intro n
  induction n with
  | zero =>
    intro lo hi hn e he
    rw [bisect_events_base D good bad funcs lo hi (by omega)] at he
    cases he
  | succ n ih =>
    intro lo hi hn e he
    by_cases hb : hi - lo ≤ 1
    · rw [bisect_events_base D good bad funcs lo hi hb] at he
      cases he
    · obtain ⟨m, hmdef⟩ : ∃ m, pymid lo hi = m := ⟨_, rfl⟩
      have hmid1 : lo < m := by rw [← hmdef]; simp only [pymid]; omega
      have hmid2 : m < hi := by rw [← hmdef]; simp only [pymid]; omega
      rw [bisect_events] at he
      simp only [dif_neg hb, hmdef, List.mem_append, List.mem_cons,
        List.mem_singleton, List.not_mem_nil, or_false] at he
      rcases he with (((he | he) | he) | he) | he
      · subst he
        simp only [BEvent.spanLo, BEvent.spanHi]
        refine ⟨le_refl _, by omega, Or.inl (by omega)⟩
      · subst he
        simp only [BEvent.spanLo, BEvent.spanHi]
        refine ⟨by omega, le_refl _, Or.inl (by omega)⟩
      · by_cases hvL : D (dsetMany good bad (pyslice funcs lo m)) = BAD_STATUS
        · rw [if_pos hvL] at he
          rcases List.mem_cons.1 he with he | he
          · subst he
            simp only [BEvent.spanLo, BEvent.spanHi]
            refine ⟨le_refl _, by omega, Or.inl (by omega)⟩
          · obtain ⟨hl, hr, hd⟩ := ih lo m (by omega) e he
            refine ⟨hl, by omega, Or.inl ?_⟩
            rcases hd with hd | hd
            · omega
            · subst hd
              simp only [BEvent.spanLo, BEvent.spanHi] at hl hr ⊢
              omega
        · rw [if_neg hvL] at he
          cases he
      · by_cases hvR : D (dsetMany good bad (pyslice funcs m hi)) = BAD_STATUS
        · rw [if_pos hvR] at he
          rcases List.mem_cons.1 he with he | he
          · subst he
            simp only [BEvent.spanLo, BEvent.spanHi]
            refine ⟨by omega, le_refl _, Or.inl (by omega)⟩
          · obtain ⟨hl, hr, hd⟩ := ih m hi (by omega) e he
            refine ⟨by omega, hr, Or.inl ?_⟩
            rcases hd with hd | hd
            · omega
            · subst hd
              simp only [BEvent.spanLo, BEvent.spanHi] at hl hr ⊢
              omega
        · rw [if_neg hvR] at he
          cases he
      · by_cases hg : D (dsetMany good bad (pyslice funcs lo m)) = GOOD_STATUS ∧
            D (dsetMany good bad (pyslice funcs m hi)) = GOOD_STATUS
        · rw [if_pos hg] at he
          rw [List.mem_singleton] at he
          subst he
          exact ⟨le_refl _, le_refl _, Or.inr rfl⟩
        · rw [if_neg hg] at he
          cases he

end EventLemmas

/-- Claim C9: at an interval with at least two elements, the bisection
recurses into a half-interval iff that half's verdict is BAD, invokes
`range_search` over the interval iff both halves' verdicts are GOOD, and a
half whose verdict is SKIP (or PROBLEM) triggers neither recursion nor a
range search. -/
theorem bisect_control_flow {K V : Type} [DecidableEq K] [Inhabited V]
    (D : Cfg K V → status_enum) (good bad : Cfg K V) (funcs : List K)
    (lo hi : Nat) (h2 : 2 ≤ hi - lo) :
    ((BEvent.enter lo (pymid lo hi) ∈ bisect_events D good bad funcs lo hi) ↔
      D (dsetMany good bad (pyslice funcs lo (pymid lo hi))) = BAD_STATUS) ∧
    ((BEvent.enter (pymid lo hi) hi ∈ bisect_events D good bad funcs lo hi) ↔
      D (dsetMany good bad (pyslice funcs (pymid lo hi) hi)) = BAD_STATUS) ∧
    ((BEvent.rangeCall lo hi ∈ bisect_events D good bad funcs lo hi) ↔
      (D (dsetMany good bad (pyslice funcs lo (pymid lo hi))) = GOOD_STATUS ∧
       D (dsetMany good bad (pyslice funcs (pymid lo hi) hi)) = GOOD_STATUS)) ∧
    ((D (dsetMany good bad (pyslice funcs lo (pymid lo hi))) = SKIP_STATUS ∨
      D (dsetMany good bad (pyslice funcs lo (pymid lo hi))) = PROBLEM_STATUS) →
      BEvent.enter lo (pymid lo hi) ∉ bisect_events D good bad funcs lo hi ∧
      BEvent.rangeCall lo hi ∉ bisect_events D good bad funcs lo hi) := by
  obtain ⟨m, hmdef⟩ : ∃ m, pymid lo hi = m := ⟨_, rfl⟩
  have hmid1 : lo < m := by rw [← hmdef]; simp only [pymid]; omega
  have hmid2 : m < hi := by rw [← hmdef]; simp only [pymid]; omega
  have hb : ¬ hi - lo ≤ 1 := by omega
  have hLrecL : BEvent.enter lo m ∉ bisect_events D good bad funcs lo m := by
    intro h
    obtain ⟨hl, hr, hd⟩ :=
      bisect_events_span D good bad funcs (m - lo) lo m (le_refl _) _ h
    rcases hd with hd | hd
    · simp only [BEvent.spanLo, BEvent.spanHi] at hd
      omega
    · cases hd
  have hLrecR : BEvent.enter lo m ∉ bisect_events D good bad funcs m hi := by
    intro h
    obtain ⟨hl, _, _⟩ :=
      bisect_events_span D good bad funcs (hi - m) m hi (le_refl _) _ h
    simp only [BEvent.spanLo] at hl
    omega
  have hRrecL : BEvent.enter m hi ∉ bisect_events D good bad funcs lo m := by
    intro h
    obtain ⟨_, hr, _⟩ :=
      bisect_events_span D good bad funcs (m - lo) lo m (le_refl _) _ h
    simp only [BEvent.spanHi] at hr
    omega
  have hRrecR : BEvent.enter m hi ∉ bisect_events D good bad funcs m hi := by
    intro h
    obtain ⟨hl, hr, hd⟩ :=
      bisect_events_span D good bad funcs (hi - m) m hi (le_refl _) _ h
    rcases hd with hd | hd
    · simp only [BEvent.spanLo, BEvent.spanHi] at hd
      omega
    · cases hd
  have hCrecL : BEvent.rangeCall lo hi ∉ bisect_events D good bad funcs lo m := by
    intro h
    obtain ⟨_, hr, _⟩ :=
      bisect_events_span D good bad funcs (m - lo) lo m (le_refl _) _ h
    simp only [BEvent.spanHi] at hr
    omega
  have hCrecR : BEvent.rangeCall lo hi ∉ bisect_events D good bad funcs m hi := by
    intro h
    obtain ⟨hl, _, _⟩ :=
      bisect_events_span D good bad funcs (hi - m) m hi (le_refl _) _ h
    simp only [BEvent.spanLo] at hl
    omega
  have hev : bisect_events D good bad funcs lo hi =
      [BEvent.query lo m (D (dsetMany good bad (pyslice funcs lo m))),
        BEvent.query m hi (D (dsetMany good bad (pyslice funcs m hi)))]
      ++ (if D (dsetMany good bad (pyslice funcs lo m)) = BAD_STATUS then
            BEvent.enter lo m :: bisect_events D good bad funcs lo m
          else [])
      ++ (if D (dsetMany good bad (pyslice funcs m hi)) = BAD_STATUS then
            BEvent.enter m hi :: bisect_events D good bad funcs m hi
          else [])
      ++ (if D (dsetMany good bad (pyslice funcs lo m)) = GOOD_STATUS ∧
            D (dsetMany good bad (pyslice funcs m hi)) = GOOD_STATUS then
            [BEvent.rangeCall lo hi]
          else []) := by
    rw [bisect_events]
    simp only [dif_neg hb, hmdef]
  have hlom : lo ≠ m := by omega
  have hmhi : m ≠ hi := by omega
  rw [hmdef, hev]
  have hiff1 : (BEvent.enter lo m ∈
      [BEvent.query lo m (D (dsetMany good bad (pyslice funcs lo m))),
        BEvent.query m hi (D (dsetMany good bad (pyslice funcs m hi)))]
      ++ (if D (dsetMany good bad (pyslice funcs lo m)) = BAD_STATUS then
            BEvent.enter lo m :: bisect_events D good bad funcs lo m
          else [])
      ++ (if D (dsetMany good bad (pyslice funcs m hi)) = BAD_STATUS then
            BEvent.enter m hi :: bisect_events D good bad funcs m hi
          else [])
      ++ (if D (dsetMany good bad (pyslice funcs lo m)) = GOOD_STATUS ∧
            D (dsetMany good bad (pyslice funcs m hi)) = GOOD_STATUS then
            [BEvent.rangeCall lo hi]
          else [])) ↔
      D (dsetMany good bad (pyslice funcs lo m)) = BAD_STATUS := by
    by_cases hvL : D (dsetMany good bad (pyslice funcs lo m)) = BAD_STATUS <;>
      by_cases hvR : D (dsetMany good bad (pyslice funcs m hi)) = BAD_STATUS <;>
      simp [hvL, hvR, hLrecL, hLrecR, hlom, hmhi] <;> omega
  have hiff2 : (BEvent.enter m hi ∈
      [BEvent.query lo m (D (dsetMany good bad (pyslice funcs lo m))),
        BEvent.query m hi (D (dsetMany good bad (pyslice funcs m hi)))]
      ++ (if D (dsetMany good bad (pyslice funcs lo m)) = BAD_STATUS then
            BEvent.enter lo m :: bisect_events D good bad funcs lo m
          else [])
      ++ (if D (dsetMany good bad (pyslice funcs m hi)) = BAD_STATUS then
            BEvent.enter m hi :: bisect_events D good bad funcs m hi
          else [])
      ++ (if D (dsetMany good bad (pyslice funcs lo m)) = GOOD_STATUS ∧
            D (dsetMany good bad (pyslice funcs m hi)) = GOOD_STATUS then
            [BEvent.rangeCall lo hi]
          else [])) ↔
      D (dsetMany good bad (pyslice funcs m hi)) = BAD_STATUS := by
    by_cases hvL : D (dsetMany good bad (pyslice funcs lo m)) = BAD_STATUS <;>
      by_cases hvR : D (dsetMany good bad (pyslice funcs m hi)) = BAD_STATUS <;>
      simp [hvL, hvR, hRrecL, hRrecR, hlom, hmhi] <;> omega
  have hiff3 : (BEvent.rangeCall lo hi ∈
      [BEvent.query lo m (D (dsetMany good bad (pyslice funcs lo m))),
        BEvent.query m hi (D (dsetMany good bad (pyslice funcs m hi)))]
      ++ (if D (dsetMany good bad (pyslice funcs lo m)) = BAD_STATUS then
            BEvent.enter lo m :: bisect_events D good bad funcs lo m
          else [])
      ++ (if D (dsetMany good bad (pyslice funcs m hi)) = BAD_STATUS then
            BEvent.enter m hi :: bisect_events D good bad funcs m hi
          else [])
      ++ (if D (dsetMany good bad (pyslice funcs lo m)) = GOOD_STATUS ∧
            D (dsetMany good bad (pyslice funcs m hi)) = GOOD_STATUS then
            [BEvent.rangeCall lo hi]
          else [])) ↔
      (D (dsetMany good bad (pyslice funcs lo m)) = GOOD_STATUS ∧
        D (dsetMany good bad (pyslice funcs m hi)) = GOOD_STATUS) := by
    by_cases hg : D (dsetMany good bad (pyslice funcs lo m)) = GOOD_STATUS ∧
        D (dsetMany good bad (pyslice funcs m hi)) = GOOD_STATUS <;>
      by_cases hvL : D (dsetMany good bad (pyslice funcs lo m)) = BAD_STATUS <;>
      by_cases hvR : D (dsetMany good bad (pyslice funcs m hi)) = BAD_STATUS <;>
      simp [hg, hvL, hvR, hCrecL, hCrecR, hlom, hmhi] <;> omega
  refine ⟨hiff1, hiff2, hiff3, ?_⟩
  intro hskip
  constructor
  · rw [hiff1]
    rcases hskip with hs | hs <;> rw [hs] <;> intro h <;> cases h
  · rw [hiff3]
    rcases hskip with hs | hs <;> rw [hs] <;> rintro ⟨h, -⟩ <;> cases h

/-- Witness for C9 at a concrete two-element interval with an always-GOOD
decider: neither half is entered and `range_search` is invoked. -/
theorem bisect_control_flow_witness :
    ((BEvent.enter 0 (pymid 0 2) ∈ bisect_events
        (fun _ => GOOD_STATUS : Cfg Nat Nat → status_enum)
        [(0, 1), (1, 1)] [(0, 9), (1, 9)] [0, 1] 0 2) ↔
      (fun _ => GOOD_STATUS : Cfg Nat Nat → status_enum)
        (dsetMany [(0, 1), (1, 1)] [(0, 9), (1, 9)]
          (pyslice [0, 1] 0 (pymid 0 2))) = BAD_STATUS) ∧
    ((BEvent.enter (pymid 0 2) 2 ∈ bisect_events
        (fun _ => GOOD_STATUS : Cfg Nat Nat → status_enum)
        [(0, 1), (1, 1)] [(0, 9), (1, 9)] [0, 1] 0 2) ↔
      (fun _ => GOOD_STATUS : Cfg Nat Nat → status_enum)
        (dsetMany [(0, 1), (1, 1)] [(0, 9), (1, 9)]
          (pyslice [0, 1] (pymid 0 2) 2)) = BAD_STATUS) ∧
    ((BEvent.rangeCall 0 2 ∈ bisect_events
        (fun _ => GOOD_STATUS : Cfg Nat Nat → status_enum)
        [(0, 1), (1, 1)] [(0, 9), (1, 9)] [0, 1] 0 2) ↔
      ((fun _ => GOOD_STATUS : Cfg Nat Nat → status_enum)
        (dsetMany [(0, 1), (1, 1)] [(0, 9), (1, 9)]
          (pyslice [0, 1] 0 (pymid 0 2))) = GOOD_STATUS ∧
       (fun _ => GOOD_STATUS : Cfg Nat Nat → status_enum)
        (dsetMany [(0, 1), (1, 1)] [(0, 9), (1, 9)]
          (pyslice [0, 1] (pymid 0 2) 2)) = GOOD_STATUS)) ∧
    (((fun _ => GOOD_STATUS : Cfg Nat Nat → status_enum)
        (dsetMany [(0, 1), (1, 1)] [(0, 9), (1, 9)]
          (pyslice [0, 1] 0 (pymid 0 2))) = SKIP_STATUS ∨
      (fun _ => GOOD_STATUS : Cfg Nat Nat → status_enum)
        (dsetMany [(0, 1), (1, 1)] [(0, 9), (1, 9)]
          (pyslice [0, 1] 0 (pymid 0 2))) = PROBLEM_STATUS) →
      BEvent.enter 0 (pymid 0 2) ∉ bisect_events
        (fun _ => GOOD_STATUS : Cfg Nat Nat → status_enum)
        [(0, 1), (1, 1)] [(0, 9), (1, 9)] [0, 1] 0 2 ∧
      BEvent.rangeCall 0 2 ∉ bisect_events
        (fun _ => GOOD_STATUS : Cfg Nat Nat → status_enum)
        [(0, 1), (1, 1)] [(0, 9), (1, 9)] [0, 1] 0 2) :=
  bisect_control_flow (fun _ => GOOD_STATUS) [(0, 1), (1, 1)] [(0, 9), (1, 9)]
    [0, 1] 0 2 (by decide)

section BorderLemmas

theorem pyOrNat_some_self (v : Nat) : pyOrNat (some v) v = v := by
  simp [pyOrNat]

theorem badMids_cons_bad (m : Nat) (T : List (Nat × status_enum)) :
    badMids ((m, BAD_STATUS) :: T) = m :: badMids T := by
  simp [badMids, List.filter_cons]

theorem badMids_cons_notbad (m : Nat) (v : status_enum) (hv : ¬ v = BAD_STATUS)
    (T : List (Nat × status_enum)) : badMids ((m, v) :: T) = badMids T := by
  simp [badMids, List.filter_cons, hv]

theorem flbSpec_cons (lo : Nat) (lbv : Option Nat) (mid : Nat) (B : List Nat) :
    flbSpec lo lbv (mid :: B) = flbSpec mid (some lo) B := by
  cases B with
  | nil => rfl
  | cons b bs =>
    cases bs with
    | nil => rfl
    | cons c cs => rfl

theorem getLast?_getD_cons {α : Type} (a : α) (l : List α) :
    ∀ x, ((a :: l).getLast?).getD x = (l.getLast?).getD a := by
  induction l generalizing a with
  | nil => intro x; rfl
  | cons b bs ih =>
    intro x
    have h1 : (a :: b :: bs).getLast? = (b :: bs).getLast? := rfl
    rw [h1, ih b x, ih b a]

variable {K V : Type} [DecidableEq K] [Inhabited V]

/-- Joint characterisation of `find_upper_border`: its result equals the
midpoint of the most recent BAD probe (or `last_bad_val or hi` if none),
every probe midpoint lies strictly inside the searched interval, and every
probe verdict is an answer of the decider. -/
theorem find_upper_border_go_props (D : Cfg K V → status_enum)
    (good bad : Cfg K V) (funcs : List K) :
    ∀ (fuel : Nat) (prof : Cfg K V) (lo hi : Nat) (lbv : Option Nat),
      (hi - lo) + (lo - hi) ≤ fuel →
      ((find_upper_border_go D good bad fuel prof funcs lo hi lbv).1 =
        ((badMids (find_upper_border_go D good bad fuel prof funcs lo hi
          lbv).2.2).getLast?).getD (pyOrNat lbv hi)) ∧
      (∀ p ∈ (find_upper_border_go D good bad fuel prof funcs lo hi lbv).2.2,
        (lo ≤ hi → lo < p.1 ∧ p.1 < hi) ∧ ∃ c, p.2 = D c) := by
  intro fuel
  induction fuel with
  | zero =>
    intro prof lo hi lbv hd
    simp [find_upper_border_go, badMids]
  | succ fuel ih =>
    intro prof lo hi lbv hd
    by_cases h : average lo hi = lo ∨ average lo hi = hi
    · simp [find_upper_border_go, h, badMids]
    · rw [find_upper_border_go]
      simp only [if_neg h]
      have hmeas1 : (average lo hi - lo) + (lo - average lo hi) ≤ fuel := by
        simp only [average] at h hd ⊢
        omega
      have hmeas2 : (hi - average lo hi) + (average lo hi - hi) ≤ fuel := by
        simp only [average] at h hd ⊢
        omega
      have hbounds : lo ≤ hi → lo < average lo hi ∧ average lo hi < hi := by
        intro hlh
        simp only [average] at h ⊢
        omega
      by_cases hv : D (dsetMany prof bad (pyslice funcs lo (average lo hi))) =
          BAD_STATUS
      · simp only [if_pos hv, hv]
        obtain ⟨ih1, ih2⟩ := ih
          (dsetMany (dsetMany prof bad (pyslice funcs lo (average lo hi)))
            good funcs) lo (average lo hi) (some (average lo hi)) hmeas1
        constructor
        · simp [badMids_cons_bad, getLast?_getD_cons, ih1, pyOrNat_some_self]
        · intro p hp
          rcases List.mem_cons.1 hp with hp | hp
          · subst hp
            refine ⟨fun hlh => ⟨(hbounds hlh).1, (hbounds hlh).2⟩, ?_⟩
            exact ⟨dsetMany prof bad (pyslice funcs lo (average lo hi)), hv.symm⟩
          · obtain ⟨hb1, hb2⟩ := ih2 p hp
            refine ⟨fun hlh => ?_, hb2⟩
            have := hb1 (by
              have := hbounds hlh
              omega)
            have h2 := hbounds hlh
            exact ⟨this.1, by omega⟩
      · simp only [if_neg hv]
        obtain ⟨ih1, ih2⟩ := ih
          (dsetMany (dsetMany prof bad (pyslice funcs lo (average lo hi)))
            good funcs) (average lo hi) hi lbv hmeas2
        constructor
        · rw [badMids_cons_notbad _ _ hv, ih1]
        · intro p hp
          rcases List.mem_cons.1 hp with hp | hp
          · subst hp
            refine ⟨fun hlh => ⟨(hbounds hlh).1, (hbounds hlh).2⟩, ?_⟩
            exact ⟨dsetMany prof bad (pyslice funcs lo (average lo hi)), rfl⟩
          · obtain ⟨hb1, hb2⟩ := ih2 p hp
            refine ⟨fun hlh => ?_, hb2⟩
            have := hb1 (by
              have := hbounds hlh
              omega)
            have h2 := hbounds hlh
            exact ⟨by omega, this.2⟩

/-- Joint characterisation of `find_lower_border`: its result equals
`flbSpec` of the BAD probe midpoints, every probe midpoint lies strictly
inside the interval, and every probe verdict is an answer of the decider. -/
theorem find_lower_border_go_props (D : Cfg K V → status_enum)
    (good bad : Cfg K V) (funcs : List K) :
    ∀ (fuel : Nat) (prof : Cfg K V) (lo hi : Nat) (lbv : Option Nat),
      (hi - lo) + (lo - hi) ≤ fuel →
      ((find_lower_border_go D good bad fuel prof funcs lo hi lbv).1 =
        flbSpec lo lbv (badMids (find_lower_border_go D good bad fuel prof
          funcs lo hi lbv).2.2)) ∧
      (∀ p ∈ (find_lower_border_go D good bad fuel prof funcs lo hi lbv).2.2,
        (lo ≤ hi → lo < p.1 ∧ p.1 < hi) ∧ ∃ c, p.2 = D c) := by
  intro fuel
  induction fuel with
  | zero =>
    intro prof lo hi lbv hd
    simp [find_lower_border_go, badMids, flbSpec]
  | succ fuel ih =>
    intro prof lo hi lbv hd
    by_cases h : average lo hi = lo ∨ average lo hi = hi
    · simp [find_lower_border_go, h, badMids, flbSpec]
    · rw [find_lower_border_go]
      simp only [if_neg h]
      have hmeas1 : (hi - average lo hi) + (average lo hi - hi) ≤ fuel := by
        simp only [average] at h hd ⊢
        omega
      have hmeas2 : (average lo hi - lo) + (lo - average lo hi) ≤ fuel := by
        simp only [average] at h hd ⊢
        omega
      have hbounds : lo ≤ hi → lo < average lo hi ∧ average lo hi < hi := by
        intro hlh
        simp only [average] at h ⊢
        omega
      by_cases hv : D (dsetMany prof good (pyslice funcs lo (average lo hi))) =
          BAD_STATUS
      · simp only [if_pos hv, hv]
        obtain ⟨ih1, ih2⟩ := ih
          (dsetMany (dsetMany prof good (pyslice funcs lo (average lo hi)))
            bad funcs) (average lo hi) hi (some lo) hmeas1
        constructor
        · simp [badMids_cons_bad, flbSpec_cons, ih1]
        · intro p hp
          rcases List.mem_cons.1 hp with hp | hp
          · subst hp
            refine ⟨fun hlh => ⟨(hbounds hlh).1, (hbounds hlh).2⟩, ?_⟩
            exact ⟨dsetMany prof good (pyslice funcs lo (average lo hi)), hv.symm⟩
          · obtain ⟨hb1, hb2⟩ := ih2 p hp
            refine ⟨fun hlh => ?_, hb2⟩
            have := hb1 (by
              have := hbounds hlh
              omega)
            have h2 := hbounds hlh
            exact ⟨by omega, this.2⟩
      · simp only [if_neg hv]
        obtain ⟨ih1, ih2⟩ := ih
          (dsetMany (dsetMany prof good (pyslice funcs lo (average lo hi)))
            bad funcs) lo (average lo hi) lbv hmeas2
        constructor
        · rw [badMids_cons_notbad _ _ hv, ih1]
        · intro p hp
          rcases List.mem_cons.1 hp with hp | hp
          · subst hp
            refine ⟨fun hlh => ⟨(hbounds hlh).1, (hbounds hlh).2⟩, ?_⟩
            exact ⟨dsetMany prof good (pyslice funcs lo (average lo hi)), rfl⟩
          · obtain ⟨hb1, hb2⟩ := ih2 p hp
            refine ⟨fun hlh => ?_, hb2⟩
            have := hb1 (by
              have := hbounds hlh
              omega)
            have h2 := hbounds hlh
            exact ⟨this.1, by omega⟩

theorem find_upper_border_result (D : Cfg K V → status_enum)
    (good bad prof : Cfg K V) (funcs : List K) (lo hi : Nat) :
    (find_upper_border D good bad prof funcs lo hi none).1 =
      ((badMids (find_upper_border D good bad prof funcs lo hi
        none).2.2).getLast?).getD hi :=
  (find_upper_border_go_props D good bad funcs _ prof lo hi none (le_refl _)).1

theorem find_lower_border_result (D : Cfg K V → status_enum)
    (good bad prof : Cfg K V) (funcs : List K) (lo hi : Nat) :
    (find_lower_border D good bad prof funcs lo hi none).1 =
      flbSpec lo none (badMids (find_lower_border D good bad prof funcs lo hi
        none).2.2) :=
  (find_lower_border_go_props D good bad funcs _ prof lo hi none (le_refl _)).1

theorem find_upper_border_noBAD (D : Cfg K V → status_enum)
    (good bad : Cfg K V) (hD : ∀ c, D c ≠ BAD_STATUS)
    (prof : Cfg K V) (funcs : List K) (lo hi : Nat) :
    (find_upper_border D good bad prof funcs lo hi none).1 = hi := by
  rw [find_upper_border_result]
  have hnil : badMids (find_upper_border D good bad prof funcs lo hi
      none).2.2 = [] := by
    rw [badMids, List.filter_eq_nil_iff.mpr, List.map_nil]
    intro p hp
    obtain ⟨-, c, hc⟩ := (find_upper_border_go_props D good bad funcs _ prof
      lo hi none (le_refl _)).2 p hp
    simp only [decide_eq_true_eq]
    rw [hc]
    exact hD c
  rw [hnil]
  rfl

theorem find_lower_border_noBAD (D : Cfg K V → status_enum)
    (good bad : Cfg K V) (hD : ∀ c, D c ≠ BAD_STATUS)
    (prof : Cfg K V) (funcs : List K) (lo hi : Nat) :
    (find_lower_border D good bad prof funcs lo hi none).1 = lo := by
  rw [find_lower_border_result]
  have hnil : badMids (find_lower_border D good bad prof funcs lo hi
      none).2.2 = [] := by
    rw [badMids, List.filter_eq_nil_iff.mpr, List.map_nil]
    intro p hp
    obtain ⟨-, c, hc⟩ := (find_lower_border_go_props D good bad funcs _ prof
      lo hi none (le_refl _)).2 p hp
    simp only [decide_eq_true_eq]
    rw [hc]
    exact hD c
  rw [hnil]
  rfl

theorem mem_badMids_bounds_upper (D : Cfg K V → status_enum)
    (good bad prof : Cfg K V) (funcs : List K) (lo hi : Nat) (hlh : lo ≤ hi)
    {m : Nat} (hm : m ∈ badMids (find_upper_border D good bad prof funcs lo hi
      none).2.2) : lo < m ∧ m < hi := by
  rw [badMids] at hm
  obtain ⟨p, hp, hpm⟩ := List.mem_map.1 hm
  have hp' : p ∈ (find_upper_border D good bad prof funcs lo hi none).2.2 :=
    List.mem_of_mem_filter hp
  obtain ⟨hb, -⟩ := (find_upper_border_go_props D good bad funcs _ prof lo hi
    none (le_refl _)).2 p hp'
  rw [← hpm]
  exact hb hlh

theorem mem_badMids_bounds_lower (D : Cfg K V → status_enum)
    (good bad prof : Cfg K V) (funcs : List K) (lo hi : Nat) (hlh : lo ≤ hi)
    {m : Nat} (hm : m ∈ badMids (find_lower_border D good bad prof funcs lo hi
      none).2.2) : lo < m ∧ m < hi := by
  rw [badMids] at hm
  obtain ⟨p, hp, hpm⟩ := List.mem_map.1 hm
  have hp' : p ∈ (find_lower_border D good bad prof funcs lo hi none).2.2 :=
    List.mem_of_mem_filter hp
  obtain ⟨hb, -⟩ := (find_lower_border_go_props D good bad funcs _ prof lo hi
    none (le_refl _)).2 p hp'
  rw [← hpm]
  exact hb hlh

theorem find_upper_border_bounds (D : Cfg K V → status_enum)
    (good bad prof : Cfg K V) (funcs : List K) (lo hi : Nat) (hlh : lo < hi) :
    lo < (find_upper_border D good bad prof funcs lo hi none).1 ∧
      (find_upper_border D good bad prof funcs lo hi none).1 ≤ hi := by
  rw [find_upper_border_result]
  cases hB : (badMids (find_upper_border D good bad prof funcs lo hi
      none).2.2).getLast? with
  | none => exact ⟨hlh, le_refl _⟩
  | some m =>
    have hm : m ∈ badMids (find_upper_border D good bad prof funcs lo hi
        none).2.2 := List.mem_of_mem_getLast? (by rw [hB]; rfl)
    obtain ⟨h1, h2⟩ := mem_badMids_bounds_upper D good bad prof funcs lo hi
      (le_of_lt hlh) hm
    exact ⟨h1, by simp; omega⟩

theorem find_lower_border_bound (D : Cfg K V → status_enum)
    (good bad prof : Cfg K V) (funcs : List K) (hi : Nat) (h0 : 0 < hi) :
    (find_lower_border D good bad prof funcs 0 hi none).1 < hi := by
  rw [find_lower_border_result]
  have hmem : ∀ m ∈ badMids (find_lower_border D good bad prof funcs 0 hi
      none).2.2, 0 < m ∧ m < hi := fun m hm =>
    mem_badMids_bounds_lower D good bad prof funcs 0 hi (by omega) hm
  cases hB : badMids (find_lower_border D good bad prof funcs 0 hi
      none).2.2 with
  | nil => simpa [flbSpec, pyOrNat] using h0
  | cons b bs =>
    cases bs with
    | nil =>
      have := hmem b (by rw [hB]; exact List.mem_cons_self b [])
      simp [flbSpec, pyOrNat]
      omega
    | cons c cs =>
      simp only [flbSpec]
      cases hL : (b :: c :: cs).dropLast.getLast? with
      | none =>
        simp at hL
      | some p =>
        have hp : p ∈ (b :: c :: cs).dropLast :=
          List.mem_of_mem_getLast? (by rw [hL]; rfl)
        have hp' : p ∈ badMids (find_lower_border D good bad prof funcs 0 hi
            none).2.2 := by
          rw [hB]
          exact List.dropLast_subset _ hp
        have := hmem p hp'
        simp only [pyOrNat]
        have hpne : ¬ p = 0 := by omega
        rw [if_neg hpne]
        omega

end BorderLemmas

/-- Claim C8 (amended): when its probed interval degenerates,
`find_upper_border` returns the midpoint of its most recent BAD probe, or
the original `hi` if no probe was BAD — as the claim states.
`find_lower_border`, however, returns the value described by `flbSpec`:
the original `lo` when no probe was BAD; the sole BAD probe's midpoint
when exactly one probe was BAD (for the `lo = 0` of every actual call);
and the midpoint of the *second*-most-recent BAD probe when two or more
probes were BAD — not the most recent one, because the source applies
Python's falsy `or` to a `last_bad_val` that records the pre-probe lower
bound rather than the confirmed midpoint. -/
theorem border_search_returns {K V : Type} [DecidableEq K] [Inhabited V]
    (D : Cfg K V → status_enum) (good bad prof prof2 : Cfg K V)
    (funcs : List K) (lo hi hi2 : Nat) :
    (find_upper_border D good bad prof funcs lo hi none).1 =
      ((badMids (find_upper_border D good bad prof funcs lo hi
        none).2.2).getLast?).getD hi ∧
    (find_lower_border D good bad prof2 funcs 0 hi2 none).1 =
      flbSpec 0 none (badMids (find_lower_border D good bad prof2 funcs 0 hi2
        none).2.2) :=
  ⟨find_upper_border_result D good bad prof funcs lo hi,
    find_lower_border_result D good bad prof2 funcs 0 hi2⟩

/-- The claim C8 as stated is false for `find_lower_border`: in the run
below the probes at midpoints 4 and 6 are BAD and the probe at 7 is GOOD,
so the last boundary confirmed BAD is 6, but the function returns 4. -/
theorem border_search_returns_counterexample :
    ¬ (∀ (D : Cfg Nat Nat → status_enum) (good bad prof : Cfg Nat Nat)
        (funcs : List Nat) (hi : Nat),
      (find_lower_border D good bad prof funcs 0 hi none).1 =
        ((badMids (find_lower_border D good bad prof funcs 0 hi
          none).2.2).getLast?).getD 0) := by
  intro hcl
  have h := hcl
    (fun c =>
      if c = [(0, 0), (1, 0), (2, 0), (3, 0), (4, 1), (5, 1), (6, 1), (7, 1),
          (8, 1)] ∨
        c = [(0, 1), (1, 1), (2, 1), (3, 1), (4, 0), (5, 0), (6, 1), (7, 1),
          (8, 1)]
      then BAD_STATUS else GOOD_STATUS)
    [(0, 0), (1, 0), (2, 0), (3, 0), (4, 0), (5, 0), (6, 0), (7, 0), (8, 0)]
    [(0, 1), (1, 1), (2, 1), (3, 1), (4, 1), (5, 1), (6, 1), (7, 1), (8, 1)]
    [(0, 1), (1, 1), (2, 1), (3, 1), (4, 1), (5, 1), (6, 1), (7, 1), (8, 1)]
    [0, 1, 2, 3, 4, 5, 6, 7, 8] 8
  revert h
  decide

section RangeSearchLemmas

theorem pyslice_append {α : Type} (l : List α) (a b c : Nat) (hab : a ≤ b)
    (hbc : b ≤ c) : pyslice l a b ++ pyslice l b c = pyslice l a c := by
  rw [pyslice, pyslice, pyslice, show c - a = (b - a) + (c - b) from by omega,
    List.take_add]
  congr 2
  rw [List.drop_drop]
  congr 1
  omega

theorem pyslice_full {α : Type} (l : List α) : pyslice l 0 l.length = l := by
  simp [pyslice]

theorem headI_append_left {α : Type} [Inhabited α] {l : List α} (l2 : List α)
    (h : l ≠ []) : (l ++ l2).headI = l.headI := by
  cases l with
  | nil => cases h rfl
  | cons a t => rfl

theorem indexOf_getLast_nodup {K : Type} [DecidableEq K] :
    ∀ (l : List K), l.Nodup → ∀ (hne : l ≠ []),
      l.indexOf (l.getLast hne) = l.length - 1 := by
  intro l
  induction l with
  | nil => intro _ h; cases h rfl
  | cons a t ih =>
    intro hnd hne
    cases t with
    | nil => simp [List.indexOf_cons_self]
    | cons b ts =>
      have hbts : (b :: ts : List K) ≠ [] := by simp
      have hgl : (a :: b :: ts).getLast hne = (b :: ts).getLast hbts :=
        List.getLast_cons hbts
      rw [hgl]
      have hmem : (b :: ts).getLast hbts ∈ b :: ts := List.getLast_mem hbts
      have hne2 : a ≠ (b :: ts).getLast hbts := by
        intro he
        exact (List.nodup_cons.1 hnd).1 (he ▸ hmem)
      rw [List.indexOf_cons_ne _ hne2, ih (List.nodup_cons.1 hnd).2 hbts]
      simp

theorem pyslice_nodup {α : Type} (l : List α) (a b : Nat) (h : l.Nodup) :
    (pyslice l a b).Nodup :=
  ((List.take_sublist _ _).trans (List.drop_sublist _ _)).nodup h

variable {K V : Type} [DecidableEq K] [LinearOrder K] [Inhabited K] [Inhabited V]

/-- With a never-BAD decider, every later trial round of `range_search`
leaves the minimal range unchanged: each round rediscovers the full
current pool, which is never strictly smaller than the best range. -/
theorem range_search_go_noBAD (D : Cfg K V → status_enum) (good bad : Cfg K V)
    (sh : Nat → List K → List K) (common_funcs : List K) (lo hi : Nat)
    (hD : ∀ c, D c ≠ BAD_STATUS) (hsh : ∀ n l, (sh n l).Perm l) :
    ∀ (fuel r : Nat) (minR lm mh : List K), minR ≠ [] → lm ≠ [] → mh ≠ [] →
      lm.length + mh.length = minR.length →
      range_search_go D good bad sh common_funcs lo hi fuel r minR lm mh =
        sortK minR := by
  intro fuel
  induction fuel with
  | zero => intro r minR lm mh _ _ _ _; rfl
  | succ fuel ih =>
    intro r minR lm mh hmin hlm hmh hlen
    rw [range_search_go]
    simp only [if_pos hmin]
    rw [find_upper_border_noBAD D good bad hD, find_lower_border_noBAD D good
      bad hD, pyslice_full]
    have hlen1 : (sh (2 * r) lm ++ sh (2 * r + 1) mh).length = minR.length := by
      rw [List.length_append, (hsh (2 * r) lm).length_eq,
        (hsh (2 * r + 1) mh).length_eq, hlen]
    rw [if_neg]
    · exact ih (r + 1) minR (sh (2 * r) lm) (sh (2 * r + 1) mh) hmin
        (by
          intro h
          have := (hsh (2 * r) lm).length_eq
          rw [h] at this
          exact hlm (List.length_eq_zero.1 this.symm))
        (by
          intro h
          have := (hsh (2 * r + 1) mh).length_eq
          rw [h] at this
          exact hmh (List.length_eq_zero.1 this.symm))
        (by
          rw [(hsh (2 * r) lm).length_eq, (hsh (2 * r + 1) mh).length_eq]
          exact hlen)
    · rintro (h | h)
      · exact hmin h
      · rw [hlen1] at h
        exact lt_irrefl _ h

/-- Claim C2 (amended): over an interval `[lo, hi)` with at least two
elements (inside the common list, as every call from `bisect_profiles`
is), a `range_search` whose oracle never answers BAD does *not* return the
empty list: it returns the whole interval's components, sorted. -/
theorem range_search_noBAD (D : Cfg K V → status_enum) (good bad : Cfg K V)
    (sh : Nat → List K → List K) (common_funcs : List K) (lo hi : Nat)
    (hD : ∀ c, D c ≠ BAD_STATUS) (hsh : ∀ n l, (sh n l).Perm l)
    (h2 : 2 ≤ hi - lo) (hhi : hi ≤ common_funcs.length)
    (hnd : common_funcs.Nodup) :
    range_search D good bad sh common_funcs lo hi =
      sortK (pyslice common_funcs lo hi) ∧
    range_search D good bad sh common_funcs lo hi ≠ [] := by
  obtain ⟨m, hmdef⟩ : ∃ m, pymid lo hi = m := ⟨_, rfl⟩
  have hm1 : lo < m := by rw [← hmdef]; simp only [pymid]; omega
  have hm2 : m < hi := by rw [← hmdef]; simp only [pymid]; omega
  obtain ⟨L, hL⟩ : ∃ L, pyslice common_funcs lo m = L := ⟨_, rfl⟩
  obtain ⟨R, hR⟩ : ∃ R, pyslice common_funcs m hi = R := ⟨_, rfl⟩
  have hLlen : L.length = m - lo := by
    rw [← hL, pyslice_length common_funcs lo m (by omega)]
  have hRlen : R.length = hi - m := by
    rw [← hR, pyslice_length common_funcs m hi hhi]
  have hLne : L ≠ [] := by
    intro h
    rw [h] at hLlen
    simp at hLlen
    omega
  have hRne : R ≠ [] := by
    intro h
    rw [h] at hRlen
    simp at hRlen
    omega
  have hsl : L ++ R = pyslice common_funcs lo hi := by
    rw [← hL, ← hR]
    exact pyslice_append common_funcs lo m hi (by omega) (by omega)
  have hslen : (L ++ R).length = hi - lo := by
    rw [List.length_append, hLlen, hRlen]
    omega
  have hmain : range_search D good bad sh common_funcs lo hi =
      sortK (pyslice common_funcs lo hi) := by
    rw [range_search, show NUM_RUNS_RANGE_SEARCH = 19 + 1 from rfl,
      range_search_go]
    simp only [ne_eq, not_true_eq_false, if_false, hmdef, hL, hR]
    rw [find_upper_border_noBAD D good bad hD, find_lower_border_noBAD D good
      bad hD, pyslice_full]
    simp only [true_or, if_true]
    obtain ⟨l0, Ltl, hLc⟩ := List.exists_cons_of_ne_nil hLne
    have hhead : (L ++ R).headI = l0 := by
      rw [headI_append_left R hLne, hLc]
      rfl
    have hlast : ((L ++ R).getLast?).getD default = R.getLast hRne := by
      rw [List.getLast?_append_of_ne_nil _ hRne,
        List.getLast?_eq_getLast R hRne]
      rfl
    have hidx0 : L.indexOf (L ++ R).headI = 0 := by
      rw [hhead, hLc, List.indexOf_cons_self]
    have hRnd : R.Nodup := by
      rw [← hR]
      exact pyslice_nodup common_funcs m hi hnd
    have hidxR : R.indexOf (((L ++ R).getLast?).getD default) + 1 =
        R.length := by
      rw [hlast, indexOf_getLast_nodup R hRnd hRne]
      have : 1 ≤ R.length := by omega
      omega
    rw [hidx0, List.drop_zero, hidxR, List.take_length]
    by_cases hc2 : (L ++ R).length = 2
    · rw [if_pos hc2, hsl]
    · rw [if_neg hc2]
      rw [range_search_go_noBAD D good bad sh common_funcs lo hi hD hsh 19 1
        (L ++ R) L R (by
          intro h
          rw [h] at hslen
          simp at hslen
          omega) hLne hRne (by rw [List.length_append])]
      rw [hsl]
  refine ⟨hmain, ?_⟩
  rw [hmain]
  intro h
  have hlen : (sortK (pyslice common_funcs lo hi)).length = 0 := by
    rw [h]
    rfl
  rw [sortK, (List.perm_insertionSort _ _).length_eq,
    pyslice_length common_funcs lo hi hhi] at hlen
  omega

/-- The claim C2 as stated is false: with an oracle that never answers
BAD, `range_search` over a two-element interval returns the whole
(sorted) interval, not the empty list. -/
theorem range_search_empty_counterexample :
    ¬ (∀ (D : Cfg Nat Nat → status_enum) (good bad : Cfg Nat Nat)
        (sh : Nat → List Nat → List Nat) (common_funcs : List Nat)
        (lo hi : Nat),
      (∀ c, D c ≠ BAD_STATUS) → 2 ≤ hi - lo → hi ≤ common_funcs.length →
      range_search D good bad sh common_funcs lo hi = []) := by
  intro hcl
  have h := hcl (fun _ => GOOD_STATUS) [(0, 1), (1, 1)] [(0, 9), (1, 9)]
    (fun _ => id) [0, 1] 0 2
    (fun _ hb => status_enum.noConfusion hb) (by decide) (by decide)
  have hval : range_search (fun _ => GOOD_STATUS : Cfg Nat Nat → status_enum)
      [(0, 1), (1, 1)] [(0, 9), (1, 9)] (fun _ => id) [0, 1] 0 2 = [0, 1] := by
    decide
  rw [hval] at h
  exact List.noConfusion h

/-- Witness for C2 (amended) at a concrete two-element interval. -/
theorem range_search_noBAD_witness :
    range_search (fun _ => GOOD_STATUS : Cfg Nat Nat → status_enum)
      [(0, 1), (1, 1)] [(0, 9), (1, 9)] (fun _ => id) [0, 1] 0 2 =
      sortK (pyslice [0, 1] 0 2) ∧
    range_search (fun _ => GOOD_STATUS : Cfg Nat Nat → status_enum)
      [(0, 1), (1, 1)] [(0, 9), (1, 9)] (fun _ => id) [0, 1] 0 2 ≠ [] :=
  range_search_noBAD (fun _ => GOOD_STATUS) [(0, 1), (1, 1)] [(0, 9), (1, 9)]
    (fun _ => id) [0, 1] 0 2 (fun _ hb => status_enum.noConfusion hb)
    (fun _ _ => List.Perm.refl _) (by decide) (by decide) (by decide)

end RangeSearchLemmas

section RangeLengthLemmas

theorem take_succ_ne_nil {α : Type} {l : List α} (h : l ≠ []) (n : Nat) :
    l.take (n + 1) ≠ [] := by
  cases l with
  | nil => cases h rfl
  | cons a t => simp [List.take_succ_cons]

theorem getD_mem {α : Type} [Inhabited α] {l : List α} {i : Nat}
    (h : i < l.length) : l.getD i default ∈ l :=
  (mem_iff_getD l _).2 ⟨i, h, rfl⟩

theorem getD_append_left {α : Type} [Inhabited α] {l l2 : List α} {i : Nat}
    (h : i < l.length) : (l ++ l2).getD i default = l.getD i default := by
  rw [List.getD_eq_getElem?_getD, List.getD_eq_getElem?_getD,
    List.getElem?_append_left h]

theorem getD_append_right {α : Type} [Inhabited α] {l l2 : List α} {i : Nat}
    (h : l.length ≤ i) :
    (l ++ l2).getD i default = l2.getD (i - l.length) default := by
  rw [List.getD_eq_getElem?_getD, List.getD_eq_getElem?_getD,
    List.getElem?_append_right h]

theorem pyslice_headI {α : Type} [Inhabited α] (l : List α) (a b : Nat)
    (hab : a < b) (hb : b ≤ l.length) :
    (pyslice l a b).headI = l.getD a default := by
  have ha : a < l.length := by omega
  rw [pyslice, List.drop_eq_getElem_cons ha,
    show b - a = (b - a - 1) + 1 from by omega, List.take_succ_cons,
    List.getD_eq_getElem l default ha]
  rfl

theorem pyslice_getLastI {α : Type} [Inhabited α] (l : List α) (a b : Nat)
    (hab : a < b) (hb : b ≤ l.length) :
    ((pyslice l a b).getLast?).getD default = l.getD (b - 1) default := by
  have hlen : (pyslice l a b).length = b - a := pyslice_length l a b hb
  rw [List.getLast?_eq_getElem?, hlen,
    pyslice_getElem? l a b (b - a - 1) (by omega),
    show a + (b - a - 1) = b - 1 from by omega, ← List.getD_eq_getElem?_getD]

variable {K V : Type} [DecidableEq K] [LinearOrder K] [Inhabited K] [Inhabited V]

/-- Invariant of the `range_search` trial loop: once the trial pools are
non-empty and the current minimal range has at least two elements (or no
trial has run yet), the final answer has at least two elements. -/
theorem range_search_go_length (D : Cfg K V → status_enum) (good bad : Cfg K V)
    (sh : Nat → List K → List K) (common_funcs : List K) (lo hi : Nat)
    (hsh : ∀ n l, (sh n l).Perm l) (h2 : 2 ≤ hi - lo)
    (hhi : hi ≤ common_funcs.length) :
    ∀ (fuel r : Nat) (minR lm mh : List K),
      ((minR = [] ∧ lm = [] ∧ mh = []) ∨
        (2 ≤ minR.length ∧ lm ≠ [] ∧ mh ≠ [])) →
      (minR = [] → fuel ≠ 0) →
      2 ≤ (range_search_go D good bad sh common_funcs lo hi fuel r minR lm
        mh).length := by
  intro fuel
  induction fuel with
  | zero =>
    intro r minR lm mh hinv hfuel
    rcases hinv with ⟨h1, -, -⟩ | ⟨h1, -, -⟩
    · exact absurd rfl (hfuel h1)
    · rw [range_search_go, sortK, (List.perm_insertionSort _ _).length_eq]
      exact h1
  | succ fuel ih =>
    intro r minR lm mh hinv hfuel
    rw [range_search_go]
    have hpools : ∀ (L R : List K),
        (if minR ≠ [] then sh (2 * r) lm
          else pyslice common_funcs lo (pymid lo hi)) = L →
        (if minR ≠ [] then sh (2 * r + 1) mh
          else pyslice common_funcs (pymid lo hi) hi) = R →
        L ≠ [] ∧ R ≠ [] := by
      intro L R hL hR
      rcases hinv with ⟨h1, h2', h3⟩ | ⟨h1, h2', h3⟩
      · rw [if_neg (by simp [h1])] at hL
        rw [if_neg (by simp [h1])] at hR
        constructor
        · rw [← hL]
          intro hc
          have := pyslice_length common_funcs lo (pymid lo hi)
            (by simp only [pymid]; omega)
          rw [hc] at this
          simp only [List.length_nil] at this
          simp only [pymid] at this
          omega
        · rw [← hR]
          intro hc
          have := pyslice_length common_funcs (pymid lo hi) hi hhi
          rw [hc] at this
          simp only [List.length_nil] at this
          simp only [pymid] at this
          omega
      · have hm : minR ≠ [] := by
          intro hc
          rw [hc] at h1
          simp at h1
        rw [if_pos hm] at hL
        rw [if_pos hm] at hR
        constructor
        · rw [← hL]
          intro hc
          have := (hsh (2 * r) lm).length_eq
          rw [hc] at this
          exact h2' (List.length_eq_zero.1 this.symm)
        · rw [← hR]
          intro hc
          have := (hsh (2 * r + 1) mh).length_eq
          rw [hc] at this
          exact h3 (List.length_eq_zero.1 this.symm)
    obtain ⟨L, hL⟩ : ∃ L, (if minR ≠ [] then sh (2 * r) lm
        else pyslice common_funcs lo (pymid lo hi)) = L := ⟨_, rfl⟩
    obtain ⟨R, hR⟩ : ∃ R, (if minR ≠ [] then sh (2 * r + 1) mh
        else pyslice common_funcs (pymid lo hi) hi) = R := ⟨_, rfl⟩
    obtain ⟨hLne, hRne⟩ := hpools L R hL hR
    rw [hL, hR]
    have hLpos : 1 ≤ L.length := by
      cases L with
      | nil => cases hLne rfl
      | cons a t => simp
    have hRpos : 1 ≤ R.length := by
      cases R with
      | nil => cases hRne rfl
      | cons a t => simp
    have hmid1 : L.length < (L ++ R).length := by
      rw [List.length_append]
      omega
    obtain ⟨ub, hub⟩ : ∃ u, (find_upper_border D good bad
        (dsetMany good bad L) (L ++ R) L.length (L ++ R).length none).1 = u :=
      ⟨_, rfl⟩
    obtain ⟨hub1, hub2⟩ := hub ▸ find_upper_border_bounds D good bad
      (dsetMany good bad L) (L ++ R) L.length (L ++ R).length hmid1
    rw [hub]
    obtain ⟨lb, hlb⟩ : ∃ u, (find_lower_border D good bad
        (dsetMany (find_upper_border D good bad (dsetMany good bad L) (L ++ R)
          L.length (L ++ R).length none).2.1 bad
          (L ++ pyslice (L ++ R) L.length ub))
        (L ++ R) 0 L.length none).1 = u := ⟨_, rfl⟩
    have hlb1 : lb < L.length := hlb ▸ find_lower_border_bound D good bad _
      (L ++ R) L.length (by omega)
    rw [hlb]
    have hcurrlen : (pyslice (L ++ R) lb ub).length = ub - lb :=
      pyslice_length (L ++ R) lb ub hub2
    have hcurr2 : 2 ≤ (pyslice (L ++ R) lb ub).length := by omega
    by_cases hrepl : minR = [] ∨ (pyslice (L ++ R) lb ub).length < minR.length
    · rw [if_pos hrepl]
      have hhead : (pyslice (L ++ R) lb ub).headI ∈ L := by
        rw [pyslice_headI (L ++ R) lb ub (by omega) hub2,
          getD_append_left (by omega)]
        exact getD_mem (by omega)
      have hlast : ((pyslice (L ++ R) lb ub).getLast?).getD default ∈ R := by
        rw [pyslice_getLastI (L ++ R) lb ub (by omega) hub2,
          getD_append_right (by omega)]
        refine getD_mem ?_
        rw [List.length_append] at hub2
        omega
      by_cases hc2 : (pyslice (L ++ R) lb ub).length = 2
      · rw [if_pos hc2, sortK, (List.perm_insertionSort _ _).length_eq]
        omega
      · rw [if_neg hc2]
        refine ih (r + 1) (pyslice (L ++ R) lb ub) _ _ (Or.inr ⟨hcurr2, ?_, ?_⟩)
          (fun hc => absurd hc (by
            intro hc'
            rw [hc'] at hcurrlen
            simp at hcurrlen
            omega))
        · intro hc
          have hidx := List.indexOf_lt_length.mpr hhead
          have := List.length_drop (L.indexOf (pyslice (L ++ R) lb ub).headI) L
          rw [hc] at this
          simp at this
          omega
        · exact take_succ_ne_nil hRne _
    · rw [if_neg hrepl]
      have hm : minR ≠ [] := by
        intro hc
        exact hrepl (Or.inl hc)
      refine ih (r + 1) minR L R ?_ (fun hc => absurd hc hm)
      rcases hinv with ⟨h1, -, -⟩ | ⟨h1, -, -⟩
      · exact absurd h1 hm
      · exact Or.inr ⟨h1, hLne, hRne⟩

/-- The result of `range_search` over a well-formed interval always has at
least two elements. -/
theorem range_search_length (D : Cfg K V → status_enum) (good bad : Cfg K V)
    (sh : Nat → List K → List K) (common_funcs : List K) (lo hi : Nat)
    (hsh : ∀ n l, (sh n l).Perm l) (h2 : 2 ≤ hi - lo)
    (hhi : hi ≤ common_funcs.length) :
    2 ≤ (range_search D good bad sh common_funcs lo hi).length :=
  range_search_go_length D good bad sh common_funcs lo hi hsh h2 hhi
    NUM_RUNS_RANGE_SEARCH 0 [] [] [] (Or.inl ⟨rfl, rfl, rfl⟩)
    (fun _ => by rw [NUM_RUNS_RANGE_SEARCH]; omega)

end RangeLengthLemmas

section RangesInvariant

variable {K V : Type} [DecidableEq K] [LinearOrder K] [Inhabited K] [Inhabited V]

theorem bisect_ranges_eq (D : Cfg K V → status_enum) (good bad : Cfg K V)
    (sh : Nat → List K → List K) (funcs : List K) (lo hi : Nat)
    (h : ¬ hi - lo ≤ 1) :
    (bisect_profiles D good bad sh funcs lo hi).ranges =
      (if D (dsetMany good bad (pyslice funcs lo (pymid lo hi))) = BAD_STATUS
        then (bisect_profiles D good bad sh funcs lo (pymid lo hi)).ranges
        else []) ++
      (if D (dsetMany good bad (pyslice funcs (pymid lo hi) hi)) = BAD_STATUS
        then (bisect_profiles D good bad sh funcs (pymid lo hi) hi).ranges
        else []) ++
      (if (D (dsetMany good bad (pyslice funcs lo (pymid lo hi))) =
            GOOD_STATUS ∧
          D (dsetMany good bad (pyslice funcs (pymid lo hi) hi)) =
            GOOD_STATUS) ∧
          range_search D good bad sh funcs lo hi ≠ []
        then [range_search D good bad sh funcs lo hi] else []) := by
  rw [bisect_profiles]
  simp only [dif_neg h]
  split_ifs <;> simp_all

/-- Every range reported by `bisect_profiles` over a well-formed interval
has at least two elements. -/
theorem bisect_ranges_length (D : Cfg K V → status_enum) (good bad : Cfg K V)
    (sh : Nat → List K → List K) (common_funcs : List K)
    (hsh : ∀ n l, (sh n l).Perm l) :
    ∀ n lo hi, hi - lo ≤ n → hi ≤ common_funcs.length →
      ∀ r ∈ (bisect_profiles D good bad sh common_funcs lo hi).ranges,
        2 ≤ r.length := by
  intro n
  induction n with
  | zero =>
    intro lo hi hn hhi r hr
    rw [bisect_base D good bad sh common_funcs lo hi (by omega)] at hr
    cases hr
  | succ n ih =>
    intro lo hi hn hhi r hr
    by_cases hb : hi - lo ≤ 1
    · rw [bisect_base D good bad sh common_funcs lo hi hb] at hr
      cases hr
    · obtain ⟨m, hmdef⟩ : ∃ m, pymid lo hi = m := ⟨_, rfl⟩
      have hmid1 : lo < m := by rw [← hmdef]; simp only [pymid]; omega
      have hmid2 : m < hi := by rw [← hmdef]; simp only [pymid]; omega
      rw [bisect_ranges_eq D good bad sh common_funcs lo hi hb, hmdef] at hr
      rcases List.mem_append.1 hr with hr | hr
      · rcases List.mem_append.1 hr with hr | hr
        · by_cases hv : D (dsetMany good bad (pyslice common_funcs lo m)) =
              BAD_STATUS
          · rw [if_pos hv] at hr
            exact ih lo m (by omega) (by omega) r hr
          · rw [if_neg hv] at hr
            cases hr
        · by_cases hv : D (dsetMany good bad (pyslice common_funcs m hi)) =
              BAD_STATUS
          · rw [if_pos hv] at hr
            exact ih m hi (by omega) hhi r hr
          · rw [if_neg hv] at hr
            cases hr
      · by_cases hg : (D (dsetMany good bad (pyslice common_funcs lo m)) =
            GOOD_STATUS ∧
            D (dsetMany good bad (pyslice common_funcs m hi)) =
              GOOD_STATUS) ∧
            range_search D good bad sh common_funcs lo hi ≠ []
        · rw [if_pos hg, List.mem_singleton] at hr
          subst hr
          exact range_search_length D good bad sh common_funcs lo hi hsh
            (by omega) hhi
        · rw [if_neg hg] at hr
          cases hr

/-- Claim C3: every list appearing in the `ranges` returned by
`bisect_profiles_wrapper` has length at least two; a problematic interval
of length one is only ever reported through `individuals` via the base
case. -/
theorem wrapper_ranges_length {K' V' : Type} [DecidableEq K'] [LinearOrder K']
    [Inhabited K'] [Inhabited V'] (D : Cfg K' V' → status_enum)
    (good bad : Cfg K' V') (perform_check : Bool) (shuf : List K' → List K')
    (sh : Nat → List K' → List K') (res : BisectResults K')
    (hsh : ∀ n l, (sh n l).Perm l)
    (hres : bisect_profiles_wrapper D good bad perform_check shuf sh =
      Except.ok res) :
    ∀ r ∈ res.ranges, 2 ≤ r.length := by
  unfold bisect_profiles_wrapper at hres
  by_cases h1 : perform_check ∧ D good ≠ GOOD_STATUS
  · rw [if_pos h1] at hres
    cases hres
  · rw [if_neg h1] at hres
    by_cases h2 : perform_check ∧ D bad ≠ BAD_STATUS
    · rw [if_pos h2] at hres
      cases hres
    · rw [if_neg h2] at hres
      by_cases hc : commonFuncs good bad = []
      · rw [if_pos hc] at hres
        simp only [Except.ok.injEq] at hres
        subst hres
        intro r hr
        cases hr
      · rw [if_neg hc] at hres
        simp only [Except.ok.injEq] at hres
        subst hres
        intro r hr
        simp only at hr
        rw [sortRanges, (List.perm_insertionSort _ _).mem_iff] at hr
        exact bisect_ranges_length D good bad sh (shuf (commonFuncs good bad))
          hsh (shuf (commonFuncs good bad)).length 0
          (shuf (commonFuncs good bad)).length (le_refl _) (le_refl _) r hr

/-- Witness for C3 at a concrete run with one common function: the
returned `ranges` is empty, so the bound holds. -/
theorem wrapper_ranges_length_witness :
    bisect_profiles_wrapper
      (fun c => if dfind c 0 = some 9 ∧ dfind c 1 = some 9
        then BAD_STATUS else GOOD_STATUS)
      [((0 : Nat), (1 : Nat)), (1, 1)] [(0, 9), (1, 9)] true id
      (fun _ => id) = Except.ok ⟨[], [[0, 1]]⟩ ∧
    [0, 1] ∈ (⟨[], [[0, 1]]⟩ : BisectResults Nat).ranges ∧
    2 ≤ ([0, 1] : List Nat).length := by
  have hbis : bisect_profiles
      (fun c => if dfind c 0 = some 9 ∧ dfind c 1 = some 9
        then BAD_STATUS else GOOD_STATUS)
      [((0 : Nat), (1 : Nat)), (1, 1)] [(0, 9), (1, 9)] (fun _ => id)
      [0, 1] 0 ([0, 1] : List Nat).length = ⟨[], [[0, 1]]⟩ := by
    rw [bisect_profiles]
    decide
  have hres : bisect_profiles_wrapper
      (fun c => if dfind c 0 = some 9 ∧ dfind c 1 = some 9
        then BAD_STATUS else GOOD_STATUS)
      [((0 : Nat), (1 : Nat)), (1, 1)] [(0, 9), (1, 9)] true id
      (fun _ => id) = Except.ok ⟨[], [[0, 1]]⟩ := by
    rw [wrapper_ok _ _ _ _ _ (by decide) (by decide) (by decide)]
    rw [show commonFuncs [((0 : Nat), (1 : Nat)), (1, 1)] [(0, 9), (1, 9)] =
      [0, 1] from by decide]
    simp only [id_eq, hbis]
    rfl
  exact ⟨hres, by decide,
    wrapper_ranges_length _ _ _ true id (fun _ => id) ⟨[], [[0, 1]]⟩
      (fun _ _ => List.Perm.refl _) hres [0, 1] (by decide)⟩

end RangesInvariant

section StorePreservation

variable {K V : Type} [DecidableEq K] [LinearOrder K] [Inhabited K] [Inhabited V]

theorem storeExt_refl (n : Nat) (s : Store K V) : StoreExt n s s :=
  ⟨le_refl _, fun _ _ => rfl⟩

theorem readS_set_ne {s : Store K V} {r i : Nat} (h : r ≠ i) (x : Cfg K V) :
    readS (s.set r x) i = readS s i := by
  rw [readS, readS, List.getD_eq_getElem?_getD, List.getD_eq_getElem?_getD,
    List.getElem?_set_ne h]

theorem readS_append (s' : Store K V) (x : Cfg K V) {i : Nat}
    (h : i < s'.length) : readS (s' ++ [x]) i = readS s' i := by
  rw [readS, readS, List.getD_eq_getElem?_getD, List.getD_eq_getElem?_getD,
    List.getElem?_append_left h]

theorem storeExt_write {n : Nat} {s s' : Store K V} (h : StoreExt n s s')
    {r : Nat} (hr : n ≤ r) (k : K) (v : V) :
    StoreExt n s (writeKeyS s' r k v) := by
  refine ⟨?_, ?_⟩
  · rw [writeKeyS, List.length_set]
    exact h.1
  · intro i hi
    rw [writeKeyS, readS_set_ne (by omega)]
    exact h.2 i hi

theorem storeExt_foldl {n : Nat} {s : Store K V} {α : Type}
    (step : Store K V → α → Store K V) (fs : List α)
    (hstep : ∀ st f, StoreExt n s st → StoreExt n s (step st f)) :
    ∀ st, StoreExt n s st → StoreExt n s (fs.foldl step st) := by
  induction fs with
  | nil => intro st h; exact h
  | cons f fs ih => intro st h; exact ih (step st f) (hstep st f h)

theorem storeExt_splice {n : Nat} {s : Store K V} {dst : Nat} (hdst : n ≤ dst)
    (src : Nat) (fs : List K) (st : Store K V) (h : StoreExt n s st) :
    StoreExt n s (spliceS st dst src fs) := by
  rw [spliceS]
  exact storeExt_foldl _ fs (fun st' f h' => storeExt_write h' hdst _ _) st h

theorem storeExt_alloc {n : Nat} {s s' : Store K V} (h : StoreExt n s s')
    (hn : n ≤ s.length) (r : Nat) : StoreExt n s (allocCopy s' r).2 := by
  have hlen := h.1
  refine ⟨?_, ?_⟩
  · rw [allocCopy]
    simp only [List.length_append, List.length_singleton]
    omega
  · intro i hi
    rw [allocCopy]
    rw [readS_append _ _ (by omega)]
    exact h.2 i hi

theorem allocCopy_ref_ge {n : Nat} {s s' : Store K V} (h : StoreExt n s s')
    (hn : n ≤ s.length) (r : Nat) : n ≤ (allocCopy s' r).1 := by
  rw [allocCopy]
  have := h.1
  omega

theorem find_upper_borderS_go_ext (D : Cfg K V → status_enum)
    (goodR badR : Nat) {n : Nat} {s : Store K V} :
    ∀ (fuel : Nat) (s' : Store K V) (profR : Nat) (funcs : List K)
      (lo hi : Nat) (lbv : Option Nat), StoreExt n s s' → n ≤ profR →
      StoreExt n s (find_upper_borderS_go D goodR badR fuel s' profR funcs lo
        hi lbv).2 := by
  intro fuel
  induction fuel with
  | zero => intro s' profR funcs lo hi lbv h hp; exact h
  | succ fuel ih =>
    intro s' profR funcs lo hi lbv h hp
    rw [find_upper_borderS_go]
    by_cases hd : average lo hi = lo ∨ average lo hi = hi
    · rw [if_pos hd]
      exact h
    · rw [if_neg hd]
      by_cases hv : D (readS (spliceS s' profR badR
          (pyslice funcs lo (average lo hi))) profR) = BAD_STATUS
      · simp only [if_pos hv]
        exact ih _ profR funcs lo (average lo hi) (some (average lo hi))
          (storeExt_splice hp goodR funcs _ (storeExt_splice hp badR _ s' h))
          hp
      · simp only [if_neg hv]
        exact ih _ profR funcs (average lo hi) hi lbv
          (storeExt_splice hp goodR funcs _ (storeExt_splice hp badR _ s' h))
          hp

theorem find_lower_borderS_go_ext (D : Cfg K V → status_enum)
    (goodR badR : Nat) {n : Nat} {s : Store K V} :
    ∀ (fuel : Nat) (s' : Store K V) (profR : Nat) (funcs : List K)
      (lo hi : Nat) (lbv : Option Nat), StoreExt n s s' → n ≤ profR →
      StoreExt n s (find_lower_borderS_go D goodR badR fuel s' profR funcs lo
        hi lbv).2 := by
  intro fuel
  induction fuel with
  | zero => intro s' profR funcs lo hi lbv h hp; exact h
  | succ fuel ih =>
    intro s' profR funcs lo hi lbv h hp
    rw [find_lower_borderS_go]
    by_cases hd : average lo hi = lo ∨ average lo hi = hi
    · rw [if_pos hd]
      exact h
    · rw [if_neg hd]
      by_cases hv : D (readS (spliceS s' profR goodR
          (pyslice funcs lo (average lo hi))) profR) = BAD_STATUS
      · simp only [if_pos hv]
        exact ih _ profR funcs (average lo hi) hi (some lo)
          (storeExt_splice hp badR funcs _ (storeExt_splice hp goodR _ s' h))
          hp
      · simp only [if_neg hv]
        exact ih _ profR funcs lo (average lo hi) lbv
          (storeExt_splice hp badR funcs _ (storeExt_splice hp goodR _ s' h))
          hp

theorem find_upper_borderS_ext (D : Cfg K V → status_enum)
    (goodR badR : Nat) {n : Nat} {s : Store K V} (s' : Store K V)
    (profR : Nat) (funcs : List K) (lo hi : Nat) (lbv : Option Nat)
    (h : StoreExt n s s') (hp : n ≤ profR) :
    StoreExt n s (find_upper_borderS D goodR badR s' profR funcs lo hi
      lbv).2 := by
  rw [find_upper_borderS]
  exact find_upper_borderS_go_ext D goodR badR _ s' profR funcs lo hi lbv h hp

theorem find_lower_borderS_ext (D : Cfg K V → status_enum)
    (goodR badR : Nat) {n : Nat} {s : Store K V} (s' : Store K V)
    (profR : Nat) (funcs : List K) (lo hi : Nat) (lbv : Option Nat)
    (h : StoreExt n s s') (hp : n ≤ profR) :
    StoreExt n s (find_lower_borderS D goodR badR s' profR funcs lo hi
      lbv).2 := by
  rw [find_lower_borderS]
  exact find_lower_borderS_go_ext D goodR badR _ s' profR funcs lo hi lbv h hp

theorem range_search_goS_ext (D : Cfg K V → status_enum) (goodR badR : Nat)
    (sh : Nat → List K → List K) (common_funcs : List K) (lo hi : Nat)
    {n : Nat} {s : Store K V} (hn : n ≤ s.length) :
    ∀ (fuel r : Nat) (minR lm mh : List K) (s' : Store K V),
      StoreExt n s s' →
      StoreExt n s (range_search_goS D goodR badR sh common_funcs lo hi fuel
        r minR lm mh s').2 := by
  intro fuel
  induction fuel with
  | zero => intro r minR lm mh s' h; exact h
  | succ fuel ih =>
    intro r minR lm mh s' h
    simp only [range_search_goS]
    have key : ∀ (A F G : List K) (B : List K) (C E H I : Nat),
        StoreExt n s (find_lower_borderS D goodR badR
          (spliceS (find_upper_borderS D goodR badR
              (spliceS (allocCopy s' goodR).2 (allocCopy s' goodR).1 badR A)
              (allocCopy s' goodR).1 B C E none).2
            (allocCopy s' goodR).1 badR F)
          (allocCopy s' goodR).1 G H I none).2 := by
      intro A F G B C E H I
      exact find_lower_borderS_ext D goodR badR _ _ _ _ _ none
        (storeExt_splice (allocCopy_ref_ge h hn goodR) badR _ _
          (find_upper_borderS_ext D goodR badR _ _ _ _ _ none
            (storeExt_splice (allocCopy_ref_ge h hn goodR) badR _ _
              (storeExt_alloc h hn goodR))
            (allocCopy_ref_ge h hn goodR)))
        (allocCopy_ref_ge h hn goodR)
    split <;> split
    all_goals first
      | exact ih _ _ _ _ _ (key _ _ _ _ _ _ _ _)
      | (split <;> first
          | exact key _ _ _ _ _ _ _ _
          | exact ih _ _ _ _ _ (key _ _ _ _ _ _ _ _))

theorem range_searchS_ext (D : Cfg K V → status_enum) (goodR badR : Nat)
    (sh : Nat → List K → List K) (common_funcs : List K) (lo hi : Nat)
    {n : Nat} {s : Store K V} (hn : n ≤ s.length) (s' : Store K V)
    (h : StoreExt n s s') :
    StoreExt n s (range_searchS D goodR badR sh common_funcs lo hi s').2 := by
  rw [range_searchS]
  exact range_search_goS_ext D goodR badR sh common_funcs lo hi hn
    NUM_RUNS_RANGE_SEARCH 0 [] [] [] s' h

theorem bisect_profilesS_ext (D : Cfg K V → status_enum) (goodR badR : Nat)
    (sh : Nat → List K → List K) (common_funcs : List K)
    {n : Nat} {s : Store K V} (hn : n ≤ s.length) :
    ∀ (f lo hi : Nat) (s' : Store K V), hi - lo ≤ f → StoreExt n s s' →
      StoreExt n s
        (bisect_profilesS D goodR badR sh common_funcs lo hi s').2 := by
  intro f
  induction f with
  | zero =>
    intro lo hi s' hf h
    rw [bisect_profilesS, dif_pos (by omega : hi - lo ≤ 1)]
    exact h
  | succ f ih =>
    intro lo hi s' hf h
    by_cases hb : hi - lo ≤ 1
    · rw [bisect_profilesS, dif_pos hb]
      exact h
    · obtain ⟨m, hm⟩ : ∃ m, pymid lo hi = m := ⟨_, rfl⟩
      have hmb : lo < m ∧ m < hi := by
        rw [← hm]; simp only [pymid]; omega
      obtain ⟨a1, ha1d⟩ : ∃ a, allocCopy s' goodR = a := ⟨_, rfl⟩
      obtain ⟨a2, ha2d⟩ : ∃ a, allocCopy a1.2 goodR = a := ⟨_, rfl⟩
      obtain ⟨t1, ht1⟩ : ∃ t,
          spliceS a2.2 a1.1 badR (pyslice common_funcs lo m) = t := ⟨_, rfl⟩
      obtain ⟨t2, ht2⟩ : ∃ t,
          spliceS t1 a2.1 badR (pyslice common_funcs m hi) = t := ⟨_, rfl⟩
      have hA1 : StoreExt n s a1.2 := by
        rw [← ha1d]; exact storeExt_alloc h hn goodR
      have hA1r : n ≤ a1.1 := by
        rw [← ha1d]; exact allocCopy_ref_ge h hn goodR
      have hA2 : StoreExt n s a2.2 := by
        rw [← ha2d]; exact storeExt_alloc hA1 hn goodR
      have hA2r : n ≤ a2.1 := by
        rw [← ha2d]; exact allocCopy_ref_ge hA1 hn goodR
      have hT1 : StoreExt n s t1 := by
        rw [← ht1]; exact storeExt_splice hA1r badR _ _ hA2
      have hT2 : StoreExt n s t2 := by
        rw [← ht2]; exact storeExt_splice hA2r badR _ _ hT1
      rw [bisect_profilesS]
      simp only [dif_neg hb, hm, ha1d, ha2d, ht1, ht2]
      obtain ⟨p1, hp1⟩ : ∃ p,
          (if D (readS t2 a1.1) = status_enum.BAD_STATUS
            then bisect_profilesS D goodR badR sh common_funcs lo m t2
            else (⟨[], []⟩, t2)) = p := ⟨_, rfl⟩
      have hP1 : StoreExt n s p1.2 := by
        rw [← hp1]
        split
        · exact ih lo m t2 (by omega) hT2
        · exact hT2
      rw [hp1]
      obtain ⟨p2, hp2⟩ : ∃ p,
          (if D (readS t2 a2.1) = status_enum.BAD_STATUS
            then bisect_profilesS D goodR badR sh common_funcs m hi p1.2
            else (⟨[], []⟩, p1.2)) = p := ⟨_, rfl⟩
      have hP2 : StoreExt n s p2.2 := by
        rw [← hp2]
        split
        · exact ih m hi p1.2 (by omega) hP1
        · exact hP1
      rw [hp2]
      split
      · split
        · exact range_searchS_ext D goodR badR sh common_funcs lo hi hn
            p2.2 hP2
        · exact range_searchS_ext D goodR badR sh common_funcs lo hi hn
            p2.2 hP2
      · exact hP2

theorem bisect_profiles_wrapperS_ext (D : Cfg K V → status_enum)
    (goodR badR : Nat) (perform_check : Bool) (shuf : List K → List K)
    (sh : Nat → List K → List K) {n : Nat} (s : Store K V)
    (hn : n ≤ s.length) :
    StoreExt n s (bisect_profiles_wrapperS D goodR badR perform_check shuf sh
      s).2 := by
  simp only [bisect_profiles_wrapperS]
  split
  · exact storeExt_refl n s
  · split
    · exact storeExt_refl n s
    · split
      · exact storeExt_refl n s
      · exact bisect_profilesS_ext D goodR badR sh _ hn
          ((shuf (commonFuncs (readS s goodR) (readS s badR))).length) 0 _ s
          (by omega) (storeExt_refl n s)

theorem check_good_not_badS_ext (D : Cfg K V → status_enum)
    (goodR badR : Nat) {n : Nat} (s : Store K V) (hn : n ≤ s.length) :
    StoreExt n s (check_good_not_badS D goodR badR s).2 := by
  simp only [check_good_not_badS]
  refine storeExt_foldl _ _ ?_ _ (storeExt_alloc (storeExt_refl n s) hn badR)
  intro st f hst
  split
  · exact hst
  · exact storeExt_write hst
      (allocCopy_ref_ge (storeExt_refl n s) hn badR) _ _

theorem check_bad_not_goodS_ext (D : Cfg K V → status_enum)
    (goodR badR : Nat) {n : Nat} (s : Store K V) (hn : n ≤ s.length) :
    StoreExt n s (check_bad_not_goodS D goodR badR s).2 := by
  simp only [check_bad_not_goodS]
  refine storeExt_foldl _ _ ?_ _ (storeExt_alloc (storeExt_refl n s) hn goodR)
  intro st f hst
  split
  · exact hst
  · exact storeExt_write hst
      (allocCopy_ref_ge (storeExt_refl n s) hn goodR) _ _

/-- Claim C6: For every good/bad pair and every decider, running
bisect_profiles_wrapper, range_search, check_good_not_bad or
check_bad_not_good leaves the good mapping and the bad mapping unchanged:
in the store model every candidate profile is spliced into a freshly
allocated copy, so the dicts at the good and bad references read back from
the final store exactly as they were in the initial store. -/
theorem core_no_mutation (D : Cfg K V → status_enum) (goodR badR : Nat)
    (perform_check : Bool) (shuf : List K → List K)
    (sh : Nat → List K → List K) (common_funcs : List K) (lo hi : Nat)
    (s : Store K V) (hg : goodR < s.length) (hb : badR < s.length) :
    ((readS (bisect_profiles_wrapperS D goodR badR perform_check shuf sh
          s).2 goodR = readS s goodR ∧
      readS (bisect_profiles_wrapperS D goodR badR perform_check shuf sh
          s).2 badR = readS s badR) ∧
    (readS (range_searchS D goodR badR sh common_funcs lo hi s).2 goodR =
        readS s goodR ∧
      readS (range_searchS D goodR badR sh common_funcs lo hi s).2 badR =
        readS s badR) ∧
    (readS (check_good_not_badS D goodR badR s).2 goodR = readS s goodR ∧
      readS (check_good_not_badS D goodR badR s).2 badR = readS s badR) ∧
    (readS (check_bad_not_goodS D goodR badR s).2 goodR = readS s goodR ∧
      readS (check_bad_not_goodS D goodR badR s).2 badR = readS s badR)) := by
  have hw := bisect_profiles_wrapperS_ext D goodR badR perform_check shuf sh
    s (le_refl s.length)
  have hr := range_searchS_ext D goodR badR sh common_funcs lo hi
    (le_refl s.length) s (storeExt_refl s.length s)
  have hg1 := check_good_not_badS_ext D goodR badR s (le_refl s.length)
  have hb1 := check_bad_not_goodS_ext D goodR badR s (le_refl s.length)
  exact ⟨⟨hw.2 goodR hg, hw.2 badR hb⟩, ⟨hr.2 goodR hg, hr.2 badR hb⟩,
    ⟨hg1.2 goodR hg, hg1.2 badR hb⟩, ⟨hb1.2 goodR hg, hb1.2 badR hb⟩⟩

theorem core_no_mutation_witness :
    (0 : Nat) < ([[((0 : Nat), (1 : Nat))], [(0, 9)]] : Store Nat Nat).length ∧
    (1 : Nat) < ([[((0 : Nat), (1 : Nat))], [(0, 9)]] : Store Nat Nat).length ∧
    ((readS (bisect_profiles_wrapperS (fun _ => status_enum.GOOD_STATUS) 0 1 true id (fun _ => id) ([[((0 : Nat), (1 : Nat))], [(0, 9)]] : Store Nat Nat)).2 0 = readS ([[((0 : Nat), (1 : Nat))], [(0, 9)]] : Store Nat Nat) 0 ∧
      readS (bisect_profiles_wrapperS (fun _ => status_enum.GOOD_STATUS) 0 1 true id (fun _ => id) ([[((0 : Nat), (1 : Nat))], [(0, 9)]] : Store Nat Nat)).2 1 = readS ([[((0 : Nat), (1 : Nat))], [(0, 9)]] : Store Nat Nat) 1) ∧
    (readS (range_searchS (fun _ => status_enum.GOOD_STATUS) 0 1 (fun _ => id) [] 0 0 ([[((0 : Nat), (1 : Nat))], [(0, 9)]] : Store Nat Nat)).2 0 = readS ([[((0 : Nat), (1 : Nat))], [(0, 9)]] : Store Nat Nat) 0 ∧
      readS (range_searchS (fun _ => status_enum.GOOD_STATUS) 0 1 (fun _ => id) [] 0 0 ([[((0 : Nat), (1 : Nat))], [(0, 9)]] : Store Nat Nat)).2 1 = readS ([[((0 : Nat), (1 : Nat))], [(0, 9)]] : Store Nat Nat) 1) ∧
    (readS (check_good_not_badS (fun _ => status_enum.GOOD_STATUS) 0 1 ([[((0 : Nat), (1 : Nat))], [(0, 9)]] : Store Nat Nat)).2 0 = readS ([[((0 : Nat), (1 : Nat))], [(0, 9)]] : Store Nat Nat) 0 ∧
      readS (check_good_not_badS (fun _ => status_enum.GOOD_STATUS) 0 1 ([[((0 : Nat), (1 : Nat))], [(0, 9)]] : Store Nat Nat)).2 1 = readS ([[((0 : Nat), (1 : Nat))], [(0, 9)]] : Store Nat Nat) 1) ∧
    (readS (check_bad_not_goodS (fun _ => status_enum.GOOD_STATUS) 0 1 ([[((0 : Nat), (1 : Nat))], [(0, 9)]] : Store Nat Nat)).2 0 = readS ([[((0 : Nat), (1 : Nat))], [(0, 9)]] : Store Nat Nat) 0 ∧
      readS (check_bad_not_goodS (fun _ => status_enum.GOOD_STATUS) 0 1 ([[((0 : Nat), (1 : Nat))], [(0, 9)]] : Store Nat Nat)).2 1 = readS ([[((0 : Nat), (1 : Nat))], [(0, 9)]] : Store Nat Nat) 1)) :=
  ⟨by decide, by decide,
    core_no_mutation (fun _ => status_enum.GOOD_STATUS) 0 1 true id
      (fun _ => id) [] 0 0 ([[((0 : Nat), (1 : Nat))], [(0, 9)]] : Store Nat Nat) (by decide) (by decide)⟩

end StorePreservation

end AfdoProfAnalysis
